import Mathlib

/-!
# FractalSphere: a shallow embedding of `main.go`

The Go program builds an icosahedral sphere mesh, animates and projects it, and
rasterises the triangles in software.  This development embeds the pure parts of
`main.go` as Lean functions and proves properties of them.

Conventions of the embedding.

* `float64` values are taken as exact numbers: the functions are generic in the
  coordinate type `α` (a field, and for the rasteriser a linearly ordered field
  with a floor function), so every theorem holds for the reals and every
  definition can be evaluated on the rationals.  `math.Sqrt` is a parameter
  `sqrt : α → α`.
* Where rounding decides what the program does (`DrawLine`, `lerpColor` and the edge
  interpolation of `DrawOptimizedTriangle`) the function also has a version with the
  arithmetic as a parameter (`DrawLineWith` and so on).  `exactArith` gives back the
  exact function; `float64Arith` rounds every operation to the nearest number with a
  53-bit significand, ties to even.  Infinities, NaN, overflow and subnormal numbers
  are outside the model.
* Go `int` values are `Int`; slices are `List`s; `len(xs)` is `(xs.length : Int)`.
* An index expression `xs[i]` panics in Go when `i` is out of range; it is
  embedded as `index xs i : Option _` and a panic is `none`.
* `screen.Set(x, y, col)` calls are recorded as the list of pixels `(x, y)` that
  a drawing routine writes, in program order.
* `math.Sin` and `math.Cos` are parameters `sin cos : α → α`; the theorems that need
  their properties are stated for the reals.
* Division by zero has no value among exact numbers.  The divisors of `normalize`
  (inside `createSphere`) and of the edge interpolation are proved non-zero where
  they are used, and `DrawLine` tests its divisor; `animateVertices` divides by the
  length of an arbitrary vertex, and a vertex of length zero gives `none` there
  (NaN in Go).
* `Game.Update` is a function from the view state and the inputs of one tick to the
  new view state.
-/

namespace FractalSphere

/-! ## Data model -/

/-- The Go struct `Point3D` with fields `X, Y, Z float64`. -/
structure Point3D (α : Type) where
  X : α
  Y : α
  Z : α
deriving DecidableEq, Repr

/-- The Go type `Face []int`. -/
abbrev Face := List Int

/-- The Go struct `Vec2` with fields `X, Y float64`. -/
structure Vec2 (α : Type) where
  X : α
  Y : α
deriving DecidableEq, Repr

/-- The Go index expression `xs[i]`: `none` stands for the run-time panic on an
index out of range. -/
def index {β : Type} (xs : List β) (i : Int) : Option β :=
  if 0 ≤ i then xs.get? i.toNat else none

/-! ## Geometry generator -/

/-- The Go function `normalize`. -/
def normalize {α : Type} [Field α] (sqrt : α → α) (p : Point3D α) : Point3D α :=
  let length := sqrt (p.X * p.X + p.Y * p.Y + p.Z * p.Z)
  ⟨p.X / length, p.Y / length, p.Z / length⟩

/-- The Go function `midpoint`. -/
def midpoint {α : Type} [Field α] (p1 p2 : Point3D α) : Point3D α :=
  ⟨(p1.X + p2.X) / 2, (p1.Y + p2.Y) / 2, (p1.Z + p2.Z) / 2⟩

/-- The constant `t := (1.0 + math.Sqrt(5.0)) / 2.0` of `createSphere`. -/
def goldenT {α : Type} [Field α] (sqrt : α → α) : α :=
  (1 + sqrt 5) / 2

/-- The twelve seed vertices of `createSphere`. -/
def seedVertices {α : Type} [Field α] (sqrt : α → α) : List (Point3D α) :=
  let t := goldenT sqrt
  [⟨-1, t, 0⟩, ⟨1, t, 0⟩, ⟨-1, -t, 0⟩, ⟨1, -t, 0⟩,
   ⟨0, -1, t⟩, ⟨0, 1, t⟩, ⟨0, -1, -t⟩, ⟨0, 1, -t⟩,
   ⟨t, 0, -1⟩, ⟨t, 0, 1⟩, ⟨-t, 0, -1⟩, ⟨-t, 0, 1⟩]

/-- The twenty seed faces of `createSphere`. -/
def seedFaces : List Face :=
  [[0, 11, 5], [0, 5, 1], [0, 1, 7], [0, 7, 10], [0, 10, 11],
   [1, 5, 9], [5, 11, 4], [11, 10, 2], [10, 7, 6], [7, 1, 8],
   [3, 9, 4], [3, 4, 2], [3, 2, 6], [3, 6, 8], [3, 8, 9],
   [4, 9, 5], [2, 4, 11], [6, 2, 10], [8, 6, 7], [9, 8, 1]]

/-- The body of the inner loop of `createSphere`, for one `face`: the state is
the pair `(vertices, newFaces)`. -/
def subdivideFace {α : Type} [Field α] (sqrt : α → α)
    (st : List (Point3D α) × List Face) (face : Face) :
    Option (List (Point3D α) × List Face) := do
  let vertices := st.1
  let newFaces := st.2
  let f0 ← index face 0
  let f1 ← index face 1
  let f2 ← index face 2
  let v0 ← index vertices f0
  let v1 ← index vertices f1
  let v2 ← index vertices f2
  let mid01 := normalize sqrt (midpoint v0 v1)
  let mid12 := normalize sqrt (midpoint v1 v2)
  let mid20 := normalize sqrt (midpoint v2 v0)
  let mid01Idx : Int := vertices.length
  let vertices := vertices ++ [mid01]
  let mid12Idx : Int := vertices.length
  let vertices := vertices ++ [mid12]
  let mid20Idx : Int := vertices.length
  let vertices := vertices ++ [mid20]
  some (vertices,
    newFaces ++ [[f0, mid01Idx, mid20Idx], [f1, mid12Idx, mid01Idx],
                 [f2, mid20Idx, mid12Idx], [mid01Idx, mid12Idx, mid20Idx]])

/-- The inner loop `for _, face := range faces` of `createSphere`. -/
def subdivideFaces {α : Type} [Field α] (sqrt : α → α) :
    List Face → List (Point3D α) × List Face → Option (List (Point3D α) × List Face)
  | [], st => some st
  | face :: rest, st => (subdivideFace sqrt st face).bind (subdivideFaces sqrt rest)

/-- One iteration of the outer loop of `createSphere`: `newFaces` starts empty,
every face is subdivided, and `faces = newFaces`. -/
def subdividePass {α : Type} [Field α] (sqrt : α → α)
    (mesh : List (Point3D α) × List Face) : Option (List (Point3D α) × List Face) :=
  subdivideFaces sqrt mesh.2 (mesh.1, [])

/-- The outer loop `for i := 0; i < subdivisions; i++` of `createSphere`, run
for `n` iterations. -/
def subdivideLoop {α : Type} [Field α] (sqrt : α → α) :
    Nat → List (Point3D α) × List Face → Option (List (Point3D α) × List Face)
  | 0, mesh => some mesh
  | n + 1, mesh => (subdividePass sqrt mesh).bind (subdivideLoop sqrt n)

/-- The Go function `createSphere`: the loop body runs `subdivisions` times, and
not at all when `subdivisions ≤ 0`. -/
def createSphere {α : Type} [Field α] (sqrt : α → α) (subdivisions : Int) :
    Option (List (Point3D α) × List Face) :=
  subdivideLoop sqrt subdivisions.toNat (seedVertices sqrt, seedFaces)

/-- The value stored under a key of `vertexCache`: the struct
`{vertices []Point3D; faces []Face}`. -/
abbrev Mesh (α : Type) := List (Point3D α) × List Face

/-- The process-wide `vertexCache sync.Map`, as an explicit map from the key
`subdivisions` to the stored mesh.  Only `getSphereData` stores into it, always a
value of the mesh struct type, so the type assertion on a loaded value succeeds. -/
abbrev VertexCache (α : Type) := Int → Option (Mesh α)

/-- The Go function `getSphereData`, with the cache passed in and returned. -/
def getSphereData {α : Type} [Field α] (sqrt : α → α) (vertexCache : VertexCache α)
    (subdivisions : Int) : Option (Mesh α × VertexCache α) :=
  let key := subdivisions
  match vertexCache key with
  | some cachedData => some (cachedData, vertexCache)
  | none =>
    (createSphere sqrt subdivisions).bind fun mesh =>
      some (mesh, fun k => if k = key then some mesh else vertexCache k)

/-- The Go function `getLOD`. -/
def getLOD {α : Type} [LinearOrderedField α] (scale : α) : Int :=
  if scale < 50 then 1
  else if scale < 100 then 1
  else if scale < 200 then 2
  else if scale < 400 then 3
  else 4

/-! ## Rasteriser -/

/-- The Go conversion `int(x)` of a `float64`: the fraction is discarded
(truncation toward zero). -/
def toInt {α : Type} [LinearOrderedField α] [FloorRing α] (x : α) : Int :=
  if 0 ≤ x then ⌊x⌋ else ⌈x⌉

/-- The package variable `initialWidth`. -/
def initialWidth : Int := 600

/-- The package variable `initialHeight`. -/
def initialHeight : Int := 600

/-- The values taken by `v` in a Go loop `for v := lo; v <= hi; v++`. -/
def loopRange (lo hi : Int) : List Int :=
  List.map (fun k : Nat => lo + (k : Int)) (List.range (hi + 1 - lo).toNat)

/-- The Go struct `color.RGBA`, four `uint8` channels. -/
structure RGBA where
  R : Fin 256
  G : Fin 256
  B : Fin 256
  A : Fin 256
deriving DecidableEq, Repr

/-- One call `screen.Set(x, y, col)`. -/
structure SetCall where
  x : Int
  y : Int
  col : RGBA
deriving DecidableEq, Repr

/-- The Go function `DrawLine` in exact arithmetic, as the list of its `screen.Set`
calls; it is the instance `exactArith` of `DrawLineWith`. -/
def DrawLine {α : Type} [LinearOrderedField α] [FloorRing α]
    (x1 y1 x2 y2 : α) (col : RGBA) : List SetCall :=
  let dx := x2 - x1
  let dy := y2 - y1
  let steps := max |dx| |dy|
  if steps = 0 then
    [⟨toInt x1, toInt y1, col⟩]
  else
    let xIncrement := dx / steps
    let yIncrement := dy / steps
    (loopRange 0 (toInt steps)).map fun (i : Int) =>
      let x := x1 + xIncrement * (i : α)
      let y := y1 + yIncrement * (i : α)
      ⟨toInt x, toInt y, col⟩

/-- The clamped integer bounding box `(minX, minY, maxX, maxY)` computed at the
start of `DrawOptimizedTriangle`. -/
def boundingBox {α : Type} [LinearOrderedField α] [FloorRing α]
    (points : List (Vec2 α)) : Option (Int × Int × Int × Int) := do
  let p0 ← index points 0
  let p1 ← index points 1
  let p2 ← index points 2
  let minX := toInt (min p0.X (min p1.X p2.X))
  let minY := toInt (min p0.Y (min p1.Y p2.Y))
  let maxX := toInt (max p0.X (max p1.X p2.X))
  let maxY := toInt (max p0.Y (max p1.Y p2.Y))
  let minX := if minX < 0 then 0 else minX
  let minY := if minY < 0 then 0 else minY
  let maxX := if maxX ≥ initialWidth then initialWidth - 1 else maxX
  let maxY := if maxY ≥ initialHeight then initialHeight - 1 else maxY
  some (minX, minY, maxX, maxY)

/-- The crossing test of `DrawOptimizedTriangle` for the edge from `pi` to `pj`
on scanline `y`. -/
def crosses {α : Type} [LinearOrderedField α] (pi pj : Vec2 α) (y : Int) : Bool :=
  (pi.Y ≤ (y : α) ∧ pj.Y > (y : α)) ∨ (pj.Y ≤ (y : α) ∧ pi.Y > (y : α))

/-- The x-coordinate that `DrawOptimizedTriangle` interpolates on scanline `y`
along the edge from `pi` to `pj`, in exact arithmetic; it is the instance
`exactArith` of `edgeXWith`. -/
def edgeX {α : Type} [LinearOrderedField α] (pi pj : Vec2 α) (y : Int) : α :=
  pi.X + ((y : α) - pi.Y) * (pj.X - pi.X) / (pj.Y - pi.Y)

/-- The body of the edge loop of `DrawOptimizedTriangle` for edge `i`; the state
is the slice `intersections`.  The operands of `%` are non-negative here. -/
def edgeStep {α : Type} [LinearOrderedField α] (points : List (Vec2 α)) (y : Int)
    (intersections : List α) (i : Int) : Option (List α) := do
  let j := (i + 1) % (points.length : Int)
  let pi ← index points i
  let pj ← index points j
  if crosses pi pj y then
    let x := edgeX pi pj y
    some (intersections ++ [x])
  else
    some intersections

/-- The edge loop `for i := 0; i < len(points); i++` over a list of edge numbers. -/
def edgeLoop {α : Type} [LinearOrderedField α] (points : List (Vec2 α)) (y : Int) :
    List Int → List α → Option (List α)
  | [], intersections => some intersections
  | i :: rest, intersections =>
    (edgeStep points y intersections i).bind (edgeLoop points y rest)

/-- The slice `intersections` that `DrawOptimizedTriangle` builds for scanline `y`. -/
def scanIntersections {α : Type} [LinearOrderedField α] (points : List (Vec2 α)) (y : Int) :
    Option (List α) :=
  edgeLoop points y (loopRange 0 ((points.length : Int) - 1)) []

/-- The pixels `(x, y)` that `DrawOptimizedTriangle` sets on scanline `y`, given
the slice `intersections`: none unless its length is 2. -/
def fillScanline {α : Type} [LinearOrderedField α] [FloorRing α]
    (intersections : List α) (y : Int) : List (Int × Int) :=
  match intersections with
  | [i0, i1] =>
    let lo := if i0 > i1 then i1 else i0
    let hi := if i0 > i1 then i0 else i1
    ((loopRange (toInt lo) (toInt hi)).filter fun x => 0 ≤ x ∧ x < initialWidth).map
      fun x => (x, y)
  | _ => []

/-- The scanline loop `for y := minY; y <= maxY; y++` over a list of scanlines; the
state is the list of pixels set so far. -/
def fillRows {α : Type} [LinearOrderedField α] [FloorRing α] (points : List (Vec2 α)) :
    List Int → List (Int × Int) → Option (List (Int × Int))
  | [], acc => some acc
  | y :: rest, acc =>
    (scanIntersections points y).bind fun intersections =>
      fillRows points rest (acc ++ fillScanline intersections y)

/-- The fill pass of `DrawOptimizedTriangle`: the pixels it sets to `col`, in order. -/
def fillPass {α : Type} [LinearOrderedField α] [FloorRing α] (points : List (Vec2 α)) :
    Option (List (Int × Int)) :=
  (boundingBox points).bind fun box =>
    fillRows points (loopRange box.2.1 box.2.2.2) []

/-- The Go function `DrawOptimizedTriangle`, as the list of its `screen.Set` calls:
the fill pass in `col`, then the three outline strokes in white. -/
def DrawOptimizedTriangle {α : Type} [LinearOrderedField α] [FloorRing α]
    (points : List (Vec2 α)) (col : RGBA) : Option (List SetCall) := do
  let fill ← fillPass points
  let white : RGBA := ⟨255, 255, 255, 255⟩
  let p0 ← index points 0
  let p1 ← index points 1
  let p2 ← index points 2
  some (fill.map (fun p => (⟨p.1, p.2, col⟩ : SetCall))
    ++ DrawLine p0.X p0.Y p1.X p1.Y white
    ++ DrawLine p1.X p1.Y p2.X p2.Y white
    ++ DrawLine p2.X p2.Y p0.X p0.Y white)

/-! ## Colour -/

/-- The Go conversion `uint8(x)` of a `float64`: truncation toward zero, kept to
eight bits. -/
def toUint8 {α : Type} [LinearOrderedField α] [FloorRing α] (x : α) : Fin 256 :=
  ⟨(toInt x % 256).toNat, by
    have h1 : 0 ≤ toInt x % 256 := Int.emod_nonneg _ (by decide)
    have h2 : toInt x % 256 < 256 := Int.emod_lt_of_pos _ (by decide)
    omega⟩

/-- The Go conversion `float64(c)` of a `uint8` channel. -/
def ofUint8 {α : Type} [LinearOrderedField α] (c : Fin 256) : α :=
  ((c.val : Nat) : α)

/-- The Go function `lerpColor` in exact arithmetic; it is the instance `exactArith`
of `lerpColorWith`. -/
def lerpColor {α : Type} [LinearOrderedField α] [FloorRing α]
    (c1 c2 : RGBA) (t : α) : RGBA :=
  { R := toUint8 (ofUint8 c1.R * (1 - t) + ofUint8 c2.R * t)
    G := toUint8 (ofUint8 c1.G * (1 - t) + ofUint8 c2.G * t)
    B := toUint8 (ofUint8 c1.B * (1 - t) + ofUint8 c2.B * t)
    A := 255 }

/-! ## Vertex animator -/

/-- The body of the loop of `animateVertices` for the vertex at index `i`, in exact
arithmetic.  When `length` is zero the Go code divides zero by zero and every
component of the result is NaN, which is not a number of the coordinate type: the
result is `none`.  (In float64 the computed length is zero also for a non-zero
vertex so small that its squares underflow; the meshes of `createSphere` have no
such vertex.) -/
def animateVertex {α : Type} [Field α] [DecidableEq α] (sqrt sin : α → α) (time : α)
    (i : Int) (vertex : Point3D α) : Option (Point3D α) :=
  let length := sqrt (vertex.X * vertex.X + vertex.Y * vertex.Y + vertex.Z * vertex.Z)
  if length = 0 then none
  else
    let direction : Point3D α := ⟨vertex.X / length, vertex.Y / length, vertex.Z / length⟩
    let amplitude : α := 0.02
    let frequency : α := 1.0
    let phase : α := (i : α) * 0.1
    let offset := amplitude * sin (frequency * time + phase)
    some ⟨vertex.X + direction.X * offset,
          vertex.Y + direction.Y * offset,
          vertex.Z + direction.Z * offset⟩

/-- The loop `for i, vertex := range vertices` of `animateVertices`, from index `i`. -/
def animateLoop {α : Type} [Field α] [DecidableEq α] (sqrt sin : α → α) (time : α) :
    Int → List (Point3D α) → List (Option (Point3D α))
  | _, [] => []
  | i, vertex :: rest =>
    animateVertex sqrt sin time i vertex :: animateLoop sqrt sin time (i + 1) rest

/-- The Go function `animateVertices`; an entry `none` is a vertex whose
components are NaN. -/
def animateVertices {α : Type} [Field α] [DecidableEq α] (sqrt sin : α → α)
    (vertices : List (Point3D α)) (time : α) : List (Option (Point3D α)) :=
  animateLoop sqrt sin time 0 vertices

/-! ## Transform stage and face colour -/

/-- The two rotations in the inner loop of `drawSphere`: the final `(x, y, z)`
for the animated vertex `v`. -/
def rotateVertex {α : Type} [Field α] (cos sin : α → α) (angle : α) (v : Point3D α) :
    Point3D α :=
  let cosAngle := cos angle
  let sinAngle := sin angle
  let cosAngleY := cos (angle * 0.8)
  let sinAngleY := sin (angle * 0.8)
  let x := v.X * cosAngle - v.Z * sinAngle
  let z := v.X * sinAngle + v.Z * cosAngle
  let y := v.Y * cosAngleY - z * sinAngleY
  let z := v.Y * sinAngleY + z * cosAngleY
  ⟨x, y, z⟩

/-- The package variable `sphereX`. -/
def sphereX {α : Type} [Field α] : α := 300

/-- The package variable `sphereY`. -/
def sphereY {α : Type} [Field α] : α := 300

/-- The screen point `points[i][j]` that `drawSphere` computes for the animated
vertex `v`. -/
def projectVertex {α : Type} [Field α] (cos sin : α → α) (angle scale : α)
    (v : Point3D α) : Vec2 α :=
  let centerX : α := sphereX
  let centerY : α := sphereY
  let r := rotateVertex cos sin angle v
  ⟨r.X * scale + centerX, r.Y * scale + centerY⟩

/-- The package variables and `Game` fields that `Update` reads or writes. -/
structure ViewState (α : Type) where
  rotationDir : α
  scale : α
  angle : α
  isDragging : Bool
  lastMX : Int
  lastMY : Int
  lastWindowX : Int
  lastWindowY : Int
  needsRedraw : Bool
  lastScale : α
  lastAngle : α

/-- The values `Update` polls from the host in one tick. -/
structure TickInput (α : Type) where
  keyLeft : Bool
  keyRight : Bool
  scrollY : α
  mx : Int
  my : Int
  justPressed : Bool
  pressed : Bool
  justReleased : Bool
  windowX : Int
  windowY : Int

/-- The state of `NewGame` with the initial package variables. -/
def initialState {α : Type} [Field α] : ViewState α :=
  { rotationDir := 1.0, scale := 50.0, angle := 0, isDragging := false,
    lastMX := 0, lastMY := 0, lastWindowX := 0, lastWindowY := 0,
    needsRedraw := true, lastScale := 50.0, lastAngle := 0 }

/-- The Go function `isCursorOverSphere`. -/
def isCursorOverSphere {α : Type} [LinearOrderedField α] [FloorRing α] (scale : α)
    (mx my : Int) : Bool :=
  let centerX : α := sphereX
  let centerY : α := sphereY
  let radius := toInt scale
  let dx := mx - toInt centerX
  let dy := my - toInt centerY
  dx * dx + dy * dy ≤ radius * radius

/-- The two key tests at the start of `Game.Update`. -/
def applyKeys {α : Type} [LinearOrderedField α] (s : ViewState α) (inp : TickInput α) :
    ViewState α :=
  let s := if inp.keyLeft then { s with rotationDir := -1.0 } else s
  if inp.keyRight then { s with rotationDir := 1.0 } else s

/-- The scroll-wheel block of `Game.Update`. -/
def applyScroll {α : Type} [LinearOrderedField α] (s : ViewState α) (inp : TickInput α) :
    ViewState α :=
  if inp.scrollY ≠ 0 then
    let scale := s.scale + inp.scrollY * 10
    let scale := if scale < 10 then 10 else scale
    { s with scale := scale, needsRedraw := true }
  else s

/-- The idle-rotation block `if !isDragging` of `Game.Update`. -/
def applyRotation {α : Type} [LinearOrderedField α] (s : ViewState α) : ViewState α :=
  if !s.isDragging then
    { s with angle := s.angle + 0.01 * s.rotationDir, needsRedraw := true }
  else s

/-- The threshold block of `Game.Update`. -/
def applyThreshold {α : Type} [LinearOrderedField α] (s : ViewState α) : ViewState α :=
  if |s.lastScale - s.scale| > 0.1 ∨ |s.lastAngle - s.angle| > 0.01 then
    { s with needsRedraw := true, lastScale := s.scale, lastAngle := s.angle }
  else s

/-- The first part of `Game.Update`, down to the threshold test: keys, scroll wheel,
idle rotation and the redraw decision, in program order. -/
def updateView {α : Type} [LinearOrderedField α] (s : ViewState α) (inp : TickInput α) :
    ViewState α :=
  applyThreshold (applyRotation (applyScroll (applyKeys s inp) inp))

/-- The second part of `Game.Update`, from `ebiten.CursorPosition()` on: drag start,
window move and drag end; the second component is the argument of the call to
`ebiten.SetWindowPosition`, when there is one. -/
def updateDrag {α : Type} [LinearOrderedField α] [FloorRing α] (s : ViewState α)
    (inp : TickInput α) : ViewState α × Option (Int × Int) :=
  let s :=
    if inp.justPressed then
      if isCursorOverSphere s.scale inp.mx inp.my then
        { s with isDragging := true, lastMX := inp.mx, lastMY := inp.my,
                 lastWindowX := inp.windowX, lastWindowY := inp.windowY }
      else s
    else s
  let moved : ViewState α × Option (Int × Int) :=
    if inp.pressed ∧ s.isDragging then
      if inp.mx ≠ s.lastMX ∨ inp.my ≠ s.lastMY then
        let deltaX := inp.mx - s.lastMX
        let deltaY := inp.my - s.lastMY
        let newX := s.lastWindowX + deltaX
        let newY := s.lastWindowY + deltaY
        ({ s with lastMX := inp.mx, lastMY := inp.my, lastWindowX := newX, lastWindowY := newY },
          some (newX, newY))
      else (s, none)
    else (s, none)
  let s := moved.1
  let s := if inp.justReleased then { s with isDragging := false } else s
  (s, moved.2)

/-- The Go method `Game.Update`: the new state and the argument of the call to
`ebiten.SetWindowPosition`, when there is one. -/
def Update {α : Type} [LinearOrderedField α] [FloorRing α] (s : ViewState α)
    (inp : TickInput α) : ViewState α × Option (Int × Int) :=
  updateDrag (updateView s inp) inp

/-! ## Arithmetic as a parameter, and float64 rounding -/

/-- The four arithmetic operations of `float64` that the drawing code uses.
Comparisons, `math.Abs`, `math.Min`, `math.Max` and the conversions to and from `int`
do not round and are those of the carrier. -/
structure Arith (α : Type) where
  add : α → α → α
  sub : α → α → α
  mul : α → α → α
  div : α → α → α

/-- Exact arithmetic: the operations of the field. -/
def exactArith {α : Type} [Field α] : Arith α :=
  { add := fun x y => x + y, sub := fun x y => x - y,
    mul := fun x y => x * y, div := fun x y => x / y }

/-- Rounding to the nearest integer, ties to the even one. -/
def roundHalfEven (q : ℚ) : Int :=
  if q - (⌊q⌋ : ℚ) < 1 / 2 then ⌊q⌋
  else if 1 / 2 < q - (⌊q⌋ : ℚ) then ⌊q⌋ + 1
  else if ⌊q⌋ % 2 = 0 then ⌊q⌋
  else ⌊q⌋ + 1

/-- Rounding of a rational to the nearest number with a 53-bit significand, ties to
even: the rounding of IEEE 754 binary64 for results in the normal range (the
exponent range is not bounded here, so overflow and subnormal numbers are not
modelled). -/
def round64 (x : ℚ) : ℚ :=
  if x = 0 then 0
  else
    let e : Int := Int.log 2 |x| - 52
    (roundHalfEven (x / (2 : ℚ) ^ e) : ℚ) * (2 : ℚ) ^ e

/-- The arithmetic of Go `float64` on finite values: each operation is the exact one
followed by `round64`.  A quotient by zero (an infinity or NaN in Go) is not
modelled. -/
def float64Arith : Arith ℚ :=
  { add := fun x y => round64 (x + y), sub := fun x y => round64 (x - y),
    mul := fun x y => round64 (x * y), div := fun x y => round64 (x / y) }

/-- The Go function `DrawLine` with the arithmetic `A`, as the list of its
`screen.Set` calls. -/
def DrawLineWith {α : Type} [LinearOrderedField α] [FloorRing α] (A : Arith α)
    (x1 y1 x2 y2 : α) (col : RGBA) : List SetCall :=
  let dx := A.sub x2 x1
  let dy := A.sub y2 y1
  let steps := max |dx| |dy|
  if steps = 0 then
    [⟨toInt x1, toInt y1, col⟩]
  else
    let xIncrement := A.div dx steps
    let yIncrement := A.div dy steps
    (loopRange 0 (toInt steps)).map fun (i : Int) =>
      let x := A.add x1 (A.mul xIncrement (i : α))
      let y := A.add y1 (A.mul yIncrement (i : α))
      ⟨toInt x, toInt y, col⟩

/-- The x-coordinate that `DrawOptimizedTriangle` interpolates on scanline `y` along
the edge from `pi` to `pj`, with the arithmetic `A`. -/
def edgeXWith {α : Type} [LinearOrderedField α] (A : Arith α) (pi pj : Vec2 α) (y : Int) : α :=
  A.add pi.X (A.div (A.mul (A.sub (y : α) pi.Y) (A.sub pj.X pi.X)) (A.sub pj.Y pi.Y))

/-- The body of the edge loop of `DrawOptimizedTriangle` for edge `i`, with the
arithmetic `A`. -/
def edgeStepWith {α : Type} [LinearOrderedField α] (A : Arith α) (points : List (Vec2 α))
    (y : Int) (intersections : List α) (i : Int) : Option (List α) := do
  let j := (i + 1) % (points.length : Int)
  let pi ← index points i
  let pj ← index points j
  if crosses pi pj y then
    let x := edgeXWith A pi pj y
    some (intersections ++ [x])
  else
    some intersections

/-- The edge loop of `DrawOptimizedTriangle` over a list of edge numbers, with the
arithmetic `A`. -/
def edgeLoopWith {α : Type} [LinearOrderedField α] (A : Arith α) (points : List (Vec2 α))
    (y : Int) : List Int → List α → Option (List α)
  | [], intersections => some intersections
  | i :: rest, intersections =>
    (edgeStepWith A points y intersections i).bind (edgeLoopWith A points y rest)

/-- The slice `intersections` that `DrawOptimizedTriangle` builds for scanline `y`,
with the arithmetic `A`. -/
def scanIntersectionsWith {α : Type} [LinearOrderedField α] (A : Arith α)
    (points : List (Vec2 α)) (y : Int) : Option (List α) :=
  edgeLoopWith A points y (loopRange 0 ((points.length : Int) - 1)) []

/-- The scanline loop of `DrawOptimizedTriangle` over a list of scanlines, with the
arithmetic `A`. -/
def fillRowsWith {α : Type} [LinearOrderedField α] [FloorRing α] (A : Arith α)
    (points : List (Vec2 α)) : List Int → List (Int × Int) → Option (List (Int × Int))
  | [], acc => some acc
  | y :: rest, acc =>
    (scanIntersectionsWith A points y).bind fun intersections =>
      fillRowsWith A points rest (acc ++ fillScanline intersections y)

/-- The fill pass of `DrawOptimizedTriangle` with the arithmetic `A`: the pixels it
sets to `col`, in order. -/
def fillPassWith {α : Type} [LinearOrderedField α] [FloorRing α] (A : Arith α)
    (points : List (Vec2 α)) : Option (List (Int × Int)) :=
  (boundingBox points).bind fun box =>
    fillRowsWith A points (loopRange box.2.1 box.2.2.2) []

/-- The Go function `DrawOptimizedTriangle` with the arithmetic `A`, as the list of
its `screen.Set` calls: the fill pass in `col`, then the three outline strokes in
white. -/
def DrawOptimizedTriangleWith {α : Type} [LinearOrderedField α] [FloorRing α] (A : Arith α)
    (points : List (Vec2 α)) (col : RGBA) : Option (List SetCall) := do
  let fill ← fillPassWith A points
  let white : RGBA := ⟨255, 255, 255, 255⟩
  let p0 ← index points 0
  let p1 ← index points 1
  let p2 ← index points 2
  some (fill.map (fun p => (⟨p.1, p.2, col⟩ : SetCall))
    ++ DrawLineWith A p0.X p0.Y p1.X p1.Y white
    ++ DrawLineWith A p1.X p1.Y p2.X p2.Y white
    ++ DrawLineWith A p2.X p2.Y p0.X p0.Y white)

/-- The Go function `lerpColor` with the arithmetic `A`. -/
def lerpColorWith {α : Type} [LinearOrderedField α] [FloorRing α] (A : Arith α)
    (c1 c2 : RGBA) (t : α) : RGBA :=
  { R := toUint8 (A.add (A.mul (ofUint8 c1.R) (A.sub 1 t)) (A.mul (ofUint8 c2.R) t))
    G := toUint8 (A.add (A.mul (ofUint8 c1.G) (A.sub 1 t)) (A.mul (ofUint8 c2.G) t))
    B := toUint8 (A.add (A.mul (ofUint8 c1.B) (A.sub 1 t)) (A.mul (ofUint8 c2.B) t))
    A := 255 }

/-! ## States the program reaches -/

/-- The effect of the Go method `Game.Draw` on the view state: after a redraw
`needsRedraw` is false. -/
def Draw {α : Type} (s : ViewState α) : ViewState α :=
  if s.needsRedraw then { s with needsRedraw := false } else s

/-- The view states at which `Update` is called: the state of `NewGame`, and the
states after any sequence of `Update` and `Draw` calls from it.  No other code of
the program writes these variables. -/
inductive Reachable {α : Type} [LinearOrderedField α] [FloorRing α] : ViewState α → Prop
  | init : Reachable initialState
  | update (s : ViewState α) (inp : TickInput α) : Reachable s → Reachable (Update s inp).1
  | draw (s : ViewState α) : Reachable s → Reachable (Draw s)

/-! ## Mesh invariant -/

/-- A face is a triple of indices, each within the bounds of a vertex list of
length `n`. -/
def FaceOk (n : Nat) (f : Face) : Prop :=
  f.length = 3 ∧ ∀ i ∈ f, 0 ≤ i ∧ i < (n : Int)

/-- The dot product of two points taken as vectors from the origin. -/
def dot {α : Type} [Field α] (p q : Point3D α) : α :=
  p.X * q.X + p.Y * q.Y + p.Z * q.Z

/-- A face is a triple of in-bounds indices whose three vertices have pairwise
positive dot products (every edge subtends less than a right angle at the origin). -/
def FaceAcute {α : Type} [LinearOrderedField α] (vs : List (Point3D α)) (f : Face) : Prop :=
  ∃ a b c va vb vc, f = [a, b, c] ∧
    index vs a = some va ∧ index vs b = some vb ∧ index vs c = some vc ∧
    0 < dot va vb ∧ 0 < dot vb vc ∧ 0 < dot vc va

theorem FaceOk.mono {n m : Nat} {f : Face} (h : FaceOk n f) (hnm : n ≤ m) : FaceOk m f := by
  refine ⟨h.1, fun i hi => ⟨(h.2 i hi).1, ?_⟩⟩
  have := (h.2 i hi).2
  omega

theorem index_eq_some_of_lt {β : Type} (xs : List β) (i : Int) (h0 : 0 ≤ i)
    (h1 : i < (xs.length : Int)) : ∃ v, index xs i = some v := by
  have hlt : i.toNat < xs.length := by omega
  refine ⟨xs.get ⟨i.toNat, hlt⟩, ?_⟩
  simp [index, h0, List.get?_eq_get hlt]

/-- The result of one face step, written out: the three normalised midpoints are
appended to the vertices and four faces to the new faces. -/
theorem subdivideFace_eq {α : Type} [Field α] (sqrt : α → α)
    (vs : List (Point3D α)) (nf : List Face) (a b c : Int) (va vb vc : Point3D α)
    (hva : index vs a = some va) (hvb : index vs b = some vb) (hvc : index vs c = some vc) :
    subdivideFace sqrt (vs, nf) [a, b, c] =
      some (vs ++ [normalize sqrt (midpoint va vb), normalize sqrt (midpoint vb vc),
                   normalize sqrt (midpoint vc va)],
            nf ++ [[a, (vs.length : Int), (vs.length : Int) + 2],
                   [b, (vs.length : Int) + 1, (vs.length : Int)],
                   [c, (vs.length : Int) + 2, (vs.length : Int) + 1],
                   [(vs.length : Int), (vs.length : Int) + 1, (vs.length : Int) + 2]]) := by
  have h0 : index [a, b, c] 0 = some a := by simp [index]
  have h1 : index [a, b, c] 1 = some b := by simp [index]
  have h2 : index [a, b, c] 2 = some c := by simp [index]
  simp [subdivideFace, h0, h1, h2, hva, hvb, hvc, add_assoc]

/-- The inner loop on in-bounds faces: it succeeds, appends three vertices and
four in-bounds faces per face, and keeps the old vertices as a prefix. -/
theorem subdivideFaces_spec {α : Type} [Field α] (sqrt : α → α) (faces : List Face) :
    ∀ (vs : List (Point3D α)) (nf : List Face),
      (∀ f ∈ faces, FaceOk vs.length f) → (∀ f ∈ nf, FaceOk vs.length f) →
      ∃ vs2 nf2, subdivideFaces sqrt faces (vs, nf) = some (vs2, nf2) ∧
        vs2.length = vs.length + 3 * faces.length ∧
        nf2.length = nf.length + 4 * faces.length ∧
        (∃ ext, vs2 = vs ++ ext) ∧ ∀ f ∈ nf2, FaceOk vs2.length f := by
  induction faces with
  | nil =>
    intro vs nf _ hnf
    exact ⟨vs, nf, rfl, by simp, by simp, ⟨[], by simp⟩, hnf⟩
  | cons face rest ih =>
    intro vs nf hfaces hnf
    have hface : FaceOk vs.length face := hfaces face (by simp)
    obtain ⟨hlen, hin⟩ := hface
    match face, hlen, hin with
    | [a, b, c], _, hin =>
      have ha := hin a (by simp)
      have hb := hin b (by simp)
      have hc := hin c (by simp)
      obtain ⟨va, hva⟩ := index_eq_some_of_lt vs a ha.1 ha.2
      obtain ⟨vb, hvb⟩ := index_eq_some_of_lt vs b hb.1 hb.2
      obtain ⟨vc, hvc⟩ := index_eq_some_of_lt vs c hc.1 hc.2
      have hstep := subdivideFace_eq sqrt vs nf a b c va vb vc hva hvb hvc
      have hrest : ∀ f ∈ rest, FaceOk (vs ++ [normalize sqrt (midpoint va vb),
          normalize sqrt (midpoint vb vc), normalize sqrt (midpoint vc va)]).length f := by
        intro f hf
        exact (hfaces f (by simp [hf])).mono (by simp)
      have hnew : ∀ f ∈ nf ++ [[a, (vs.length : Int), (vs.length : Int) + 2],
          [b, (vs.length : Int) + 1, (vs.length : Int)],
          [c, (vs.length : Int) + 2, (vs.length : Int) + 1],
          [(vs.length : Int), (vs.length : Int) + 1, (vs.length : Int) + 2]],
          FaceOk (vs ++ [normalize sqrt (midpoint va vb),
            normalize sqrt (midpoint vb vc), normalize sqrt (midpoint vc va)]).length f := by
        intro f hf
        rcases List.mem_append.1 hf with hf | hf
        · exact (hnf f hf).mono (by simp)
        · simp only [List.mem_cons, List.mem_singleton, List.not_mem_nil, or_false] at hf
          rcases hf with rfl | rfl | rfl | rfl <;>
            refine ⟨rfl, fun i hi => ?_⟩ <;>
            simp only [List.mem_cons, List.mem_singleton, List.not_mem_nil, or_false] at hi <;>
            simp only [List.length_append, List.length_cons, List.length_nil, Nat.cast_add,
              Nat.cast_ofNat] <;>
            rcases hi with rfl | rfl | rfl <;> omega
      obtain ⟨vs2, nf2, hrun, hv, hn, ⟨ext, hext⟩, hok⟩ := ih _ _ hrest hnew
      refine ⟨vs2, nf2, ?_, ?_, ?_, ⟨[normalize sqrt (midpoint va vb),
          normalize sqrt (midpoint vb vc), normalize sqrt (midpoint vc va)] ++ ext, ?_⟩, hok⟩
      · simp only [subdivideFaces, hstep, Option.some_bind, Option.bind_some]
        exact hrun
      · simp only [List.length_append, List.length_cons, List.length_nil] at hv ⊢
        omega
      · simp only [List.length_append, List.length_cons, List.length_nil] at hn ⊢
        omega
      · rw [hext, List.append_assoc]

/-- The outer loop on a mesh with in-bounds faces: `n` passes succeed, multiply
the face count by `4 ^ n`, add `faces * (4 ^ n - 1)` vertices after the old ones,
and keep every face an in-bounds triple. -/
theorem subdivideLoop_spec {α : Type} [Field α] (sqrt : α → α) (n : Nat) :
    ∀ (vs : List (Point3D α)) (fs : List Face), (∀ f ∈ fs, FaceOk vs.length f) →
      ∃ vs2 fs2, subdivideLoop sqrt n (vs, fs) = some (vs2, fs2) ∧
        fs2.length = fs.length * 4 ^ n ∧
        vs2.length + fs.length = vs.length + fs.length * 4 ^ n ∧
        (∃ ext, vs2 = vs ++ ext) ∧ ∀ f ∈ fs2, FaceOk vs2.length f := by
  induction n with
  | zero =>
    intro vs fs hfs
    exact ⟨vs, fs, rfl, by simp, by simp, ⟨[], by simp⟩, hfs⟩
  | succ n ih =>
    intro vs fs hfs
    obtain ⟨vs1, fs1, hpass, hv1, hf1, ⟨ext1, hext1⟩, hok1⟩ :=
      subdivideFaces_spec sqrt fs vs [] hfs (by simp)
    obtain ⟨vs2, fs2, hloop, hf2, hv2, ⟨ext2, hext2⟩, hok2⟩ := ih vs1 fs1 hok1
    refine ⟨vs2, fs2, ?_, ?_, ?_, ⟨ext1 ++ ext2, ?_⟩, hok2⟩
    · simp only [subdivideLoop, subdividePass, hpass, Option.some_bind, Option.bind_some]
      exact hloop
    · rw [hf2, hf1, pow_succ]
      simp only [List.length_nil]
      ring
    · have e1 : fs1.length * 4 ^ n = 4 * (fs.length * 4 ^ n) := by
        rw [hf1]; simp only [List.length_nil]; ring
      have e2 : fs.length * 4 ^ (n + 1) = 4 * (fs.length * 4 ^ n) := by
        rw [pow_succ]; ring
      simp only [List.length_nil] at hf1
      omega
    · rw [hext2, hext1, List.append_assoc]

theorem seedFaces_ok {α : Type} [Field α] (sqrt : α → α) :
    ∀ f ∈ seedFaces, FaceOk (seedVertices sqrt).length f := by
  intro f hf
  simp only [seedFaces, List.mem_cons, List.mem_singleton, List.not_mem_nil, or_false] at hf
  have hl : (seedVertices sqrt).length = 12 := rfl
  rw [hl]
  rcases hf with h | h | h | h | h | h | h | h | h | h | h | h | h | h | h | h | h | h | h | h <;>
    subst h <;> refine ⟨rfl, ?_⟩ <;> decide

/-- The mesh of `createSphere` after `n` subdivisions, with its size and shape. -/
theorem createSphere_spec {α : Type} [Field α] (sqrt : α → α) (n : Nat) :
    ∃ vs fs, createSphere sqrt (n : Int) = some (vs, fs) ∧
      fs.length = 20 * 4 ^ n ∧ vs.length + 20 = 12 + 20 * 4 ^ n ∧
      (∃ ext, vs = seedVertices sqrt ++ ext) ∧ ∀ f ∈ fs, FaceOk vs.length f := by
  obtain ⟨vs, fs, h, hf, hv, hext, hok⟩ :=
    subdivideLoop_spec sqrt n (seedVertices sqrt) seedFaces (seedFaces_ok sqrt)
  refine ⟨vs, fs, ?_, ?_, ?_, hext, hok⟩
  · simpa [createSphere] using h
  · simpa [seedFaces] using hf
  · simpa [seedFaces, seedVertices] using hv

/-- C1: for every level `n ≥ 0`, `createSphere n` returns (without an index panic)
a mesh with exactly `20 * 4 ^ n` faces. -/
theorem createSphere_face_count {α : Type} [Field α] (sqrt : α → α) (n : Nat) :
    ∃ vs fs, createSphere sqrt (n : Int) = some (vs, fs) ∧ fs.length = 20 * 4 ^ n := by
  obtain ⟨vs, fs, h, hf, -⟩ := createSphere_spec sqrt n
  exact ⟨vs, fs, h, hf⟩

/-- C2: for every level `n ≥ 0`, every face returned by `createSphere n` is a
triple of indices and each index `i` satisfies `0 ≤ i < len(vertices)` for the
vertex list returned by the same call. -/
theorem createSphere_faces_in_bounds {α : Type} [Field α] (sqrt : α → α) (n : Nat) :
    ∃ vs fs, createSphere sqrt (n : Int) = some (vs, fs) ∧
      ∀ f ∈ fs, f.length = 3 ∧ ∀ i ∈ f, 0 ≤ i ∧ i < (vs.length : Int) := by
  obtain ⟨vs, fs, h, -, -, -, hok⟩ := createSphere_spec sqrt n
  exact ⟨vs, fs, h, hok⟩

/-- The function `createSphere` returns a mesh for every argument, negative ones included. -/
theorem createSphere_total {α : Type} [Field α] (sqrt : α → α) (subdivisions : Int) :
    ∃ m, createSphere sqrt subdivisions = some m := by
  obtain ⟨vs, fs, h, -⟩ := createSphere_spec sqrt subdivisions.toNat
  refine ⟨(vs, fs), ?_⟩
  unfold createSphere at h ⊢
  rwa [Int.toNat_ofNat] at h

/-- C3, at the failing input: for every level `n ≥ 0` (level 0 included) the first
vertex returned by `createSphere n` is the seed vertex `(-1, t, 0)` with
`t = (1 + √5) / 2`, and over the reals its squared norm `x² + y² + z²` is not 1. -/
theorem createSphere_seed_vertex_not_unit (n : Nat) :
    ∃ vs fs p, createSphere Real.sqrt (n : Int) = some (vs, fs) ∧ index vs 0 = some p ∧
      p = ⟨-1, (1 + Real.sqrt 5) / 2, 0⟩ ∧ p.X * p.X + p.Y * p.Y + p.Z * p.Z ≠ 1 := by
  obtain ⟨vs, fs, h, -, -, ⟨ext, hext⟩, -⟩ := createSphere_spec Real.sqrt n
  refine ⟨vs, fs, ⟨-1, (1 + Real.sqrt 5) / 2, 0⟩, h, ?_, rfl, ?_⟩
  · rw [hext]
    simp [index, seedVertices, goldenT]
  · have h5 : 0 ≤ Real.sqrt 5 := Real.sqrt_nonneg 5
    have ht : 0 < (1 + Real.sqrt 5) / 2 := by linarith
    have : 0 < (1 + Real.sqrt 5) / 2 * ((1 + Real.sqrt 5) / 2) := mul_pos ht ht
    simp only
    linarith

/-- C4: `getLOD s` is 1 for `s < 100`, 2 for `100 ≤ s < 200`, 3 for
`200 ≤ s < 400` and 4 for `s ≥ 400`; it maps 10, 50, 99 to 1, 100, 199 to 2,
200, 399 to 3 and 400, 1000 to 4; and its result is always one of 1, 2, 3, 4. -/
theorem getLOD_table {α : Type} [LinearOrderedField α] (s : α) :
    (s < 100 → getLOD s = 1) ∧ (100 ≤ s → s < 200 → getLOD s = 2) ∧
    (200 ≤ s → s < 400 → getLOD s = 3) ∧ (400 ≤ s → getLOD s = 4) ∧
    (getLOD s = 1 ∨ getLOD s = 2 ∨ getLOD s = 3 ∨ getLOD s = 4) ∧
    getLOD (10 : α) = 1 ∧ getLOD (50 : α) = 1 ∧ getLOD (99 : α) = 1 ∧
    getLOD (100 : α) = 2 ∧ getLOD (199 : α) = 2 ∧ getLOD (200 : α) = 3 ∧
    getLOD (399 : α) = 3 ∧ getLOD (400 : α) = 4 ∧ getLOD (1000 : α) = 4 := by
  refine ⟨?_, ?_, ?_, ?_, ?_, ?_, ?_, ?_, ?_, ?_, ?_, ?_, ?_, ?_⟩
  · intro h
    unfold getLOD
    split_ifs <;> rfl
  · intro h1 h2
    unfold getLOD
    split_ifs <;> first | rfl | linarith
  · intro h1 h2
    unfold getLOD
    split_ifs <;> first | rfl | linarith
  · intro h1
    unfold getLOD
    split_ifs <;> first | rfl | linarith
  · unfold getLOD
    split_ifs <;> simp
  all_goals
    unfold getLOD
    norm_num

/-- C5: when every stored entry of the cache for key `k` equals `createSphere k`,
`getSphereData level` returns `createSphere level`, and a second call with the
same level returns the same mesh, which is the stored entry, and leaves the
cache unchanged. -/
theorem getSphereData_cached {α : Type} [Field α] (sqrt : α → α)
    (cache : VertexCache α) (level : Int)
    (hcache : ∀ k m, cache k = some m → createSphere sqrt k = some m) :
    ∃ m cache2, getSphereData sqrt cache level = some (m, cache2) ∧
      createSphere sqrt level = some m ∧ cache2 level = some m ∧
      getSphereData sqrt cache2 level = some (m, cache2) := by
  cases hc : cache level with
  | some m =>
    refine ⟨m, cache, ?_, hcache level m hc, hc, ?_⟩ <;> simp [getSphereData, hc]
  | none =>
    obtain ⟨m, hm⟩ := createSphere_total sqrt level
    refine ⟨m, fun k => if k = level then some m else cache k, ?_, hm, by simp, ?_⟩
    · simp [getSphereData, hc, hm]
    · simp [getSphereData]

/-- A cache over the reals that holds the level-0 mesh satisfies the hypothesis of
`getSphereData_cached`; the theorem applied to it at level 1. -/
theorem getSphereData_cached_witness :
    (∀ k m, (fun k => if k = 0 then createSphere Real.sqrt 0 else none) k = some m →
        createSphere Real.sqrt k = some m) ∧
      ∃ m cache2,
        getSphereData Real.sqrt
          (fun k => if k = 0 then createSphere Real.sqrt 0 else none) 1 = some (m, cache2) ∧
        createSphere Real.sqrt 1 = some m ∧ cache2 1 = some m ∧
        getSphereData Real.sqrt cache2 1 = some (m, cache2) :=
  have hyp : ∀ k m, (fun k => if k = 0 then createSphere Real.sqrt 0 else none) k = some m →
      createSphere Real.sqrt k = some m := by
    intro k m h
    by_cases hk : k = 0
    · subst hk
      simpa using h
    · simp [hk] at h
  ⟨hyp, getSphereData_cached _ _ 1 hyp⟩

/-! ## Rasteriser lemmas -/

theorem mem_loopRange (lo hi v : Int) : v ∈ loopRange lo hi ↔ lo ≤ v ∧ v ≤ hi := by
  simp only [loopRange, List.mem_map, List.mem_range]
  constructor
  · rintro ⟨k, hk, rfl⟩
    have : (k : Int) < ((hi + 1 - lo).toNat : Int) := by exact_mod_cast hk
    omega
  · rintro ⟨h1, h2⟩
    refine ⟨(v - lo).toNat, ?_, ?_⟩
    · have : ((v - lo).toNat : Int) < ((hi + 1 - lo).toNat : Int) := by omega
      exact_mod_cast this
    · omega

theorem length_loopRange (lo hi : Int) : (loopRange lo hi).length = (hi + 1 - lo).toNat := by
  simp only [loopRange, List.length_map, List.length_range]

theorem getElem?_loopRange (lo hi : Int) (k : Nat) (hk : (k : Int) ≤ hi - lo) :
    (loopRange lo hi)[k]? = some (lo + (k : Int)) := by
  have hlt : k < (hi + 1 - lo).toNat := by omega
  simp [loopRange, List.getElem?_range hlt]

theorem loopRange_zero_two : loopRange 0 2 = [0, 1, 2] := by decide

/-- The edge loop on a triple: the intersections are the interpolated x of the
edges `(p0,p1)`, `(p1,p2)`, `(p2,p0)` that pass the crossing test, in this order. -/
theorem scanIntersections_triple {α : Type} [LinearOrderedField α] (p0 p1 p2 : Vec2 α)
    (y : Int) :
    scanIntersections [p0, p1, p2] y =
      some (((([(p0, p1), (p1, p2), (p2, p0)] : List (Vec2 α × Vec2 α)).filter
        fun e => crosses e.1 e.2 y).map fun e => edgeX e.1 e.2 y)) := by
  have hl : ((([p0, p1, p2] : List (Vec2 α)).length : Nat) : Int) = 3 := rfl
  have i0 : index [p0, p1, p2] 0 = some p0 := by simp [index]
  have i1 : index [p0, p1, p2] 1 = some p1 := by simp [index]
  have i2 : index [p0, p1, p2] 2 = some p2 := by simp [index]
  have m0 : ((0 : Int) + 1) % 3 = 1 := by decide
  have m1 : ((1 : Int) + 1) % 3 = 2 := by decide
  have m2 : ((2 : Int) + 1) % 3 = 0 := by decide
  have h32 : (3 : Int) - 1 = 2 := by decide
  rw [scanIntersections, hl, h32, loopRange_zero_two]
  simp only [edgeLoop, edgeStep, hl, m0, m1, m2, i0, i1, i2, Option.bind_eq_bind,
    Option.some_bind, Option.bind_some, List.filter, List.map]
  cases h01 : crosses p0 p1 y <;> cases h12 : crosses p1 p2 y <;> cases h20 : crosses p2 p0 y <;>
    simp

/-- The number of edges of a triple that pass the crossing test on scanline `y`
is 0 or 2. -/
theorem crossing_edges_count {α : Type} [LinearOrderedField α] (p0 p1 p2 : Vec2 α) (y : Int) :
    ((([(p0, p1), (p1, p2), (p2, p0)] : List (Vec2 α × Vec2 α)).filter
        fun e => crosses e.1 e.2 y).length = 0) ∨
    ((([(p0, p1), (p1, p2), (p2, p0)] : List (Vec2 α × Vec2 α)).filter
        fun e => crosses e.1 e.2 y).length = 2) := by
  by_cases h0 : p0.Y ≤ (y : α) <;> by_cases h1 : p1.Y ≤ (y : α) <;>
    by_cases h2 : p2.Y ≤ (y : α) <;>
    simp [List.filter, crosses, h0, h1, h2, lt_of_not_le, not_lt_of_le]

/-- C6: for every triple of points and every integer scanline `y`, the edge loop
of `DrawOptimizedTriangle` returns one intersection per cyclic edge that passes
the crossing test, and that number is 0 or 2 (never 1 or 3). -/
theorem scanline_crossings_zero_or_two {α : Type} [LinearOrderedField α]
    (p0 p1 p2 : Vec2 α) (y : Int) :
    ∃ xs, scanIntersections [p0, p1, p2] y = some xs ∧
      xs.length = (([(p0, p1), (p1, p2), (p2, p0)] : List (Vec2 α × Vec2 α)).filter
        fun e => crosses e.1 e.2 y).length ∧
      (xs.length = 0 ∨ xs.length = 2) := by
  refine ⟨_, scanIntersections_triple p0 p1 p2 y, by simp, ?_⟩
  simpa using crossing_edges_count p0 p1 p2 y

/-- The pixels set on one scanline: none unless there are exactly two
intersections; then the closed run between their truncations, inside the canvas
width. -/
theorem mem_fillScanline {α : Type} [LinearOrderedField α] [FloorRing α]
    (xs : List α) (y : Int) (p : Int × Int) :
    p ∈ fillScanline xs y ↔
      p.2 = y ∧ 0 ≤ p.1 ∧ p.1 < 600 ∧
        ∃ a b, a ≤ b ∧ (xs = [a, b] ∨ xs = [b, a]) ∧ toInt a ≤ p.1 ∧ p.1 ≤ toInt b := by
  obtain ⟨x, y2⟩ := p
  match xs with
  | [] => simp [fillScanline]
  | [_] => simp [fillScanline]
  | _ :: _ :: _ :: _ => simp [fillScanline]
  | [i0, i1] =>
    simp only [fillScanline, List.mem_map, List.mem_filter, mem_loopRange, initialWidth,
      decide_eq_true_eq, Prod.mk.injEq]
    constructor
    · rintro ⟨v, ⟨⟨hlo, hhi⟩, h0, h600⟩, rfl, rfl⟩
      refine ⟨rfl, h0, h600, ?_⟩
      by_cases hgt : i0 > i1
      · rw [if_pos hgt] at hlo hhi
        exact ⟨i1, i0, le_of_lt hgt, Or.inr rfl, hlo, hhi⟩
      · rw [if_neg hgt] at hlo hhi
        exact ⟨i0, i1, not_lt.1 hgt, Or.inl rfl, hlo, hhi⟩
    · rintro ⟨rfl, h0, h600, a, b, hab, hxs, hlo, hhi⟩
      refine ⟨x, ⟨⟨?_, ?_⟩, h0, h600⟩, rfl, rfl⟩
      · rcases hxs with h | h
        · obtain ⟨rfl, rfl⟩ : i0 = a ∧ i1 = b := by simpa using h
          rw [if_neg (not_lt.2 hab)]
          exact hlo
        · obtain ⟨rfl, rfl⟩ : i0 = b ∧ i1 = a := by simpa using h
          by_cases hgt : i0 > i1
          · rw [if_pos hgt]; exact hlo
          · rw [if_neg hgt]
            have : i0 = i1 := le_antisymm (not_lt.1 hgt) hab
            rw [this]; exact hlo
      · rcases hxs with h | h
        · obtain ⟨rfl, rfl⟩ : i0 = a ∧ i1 = b := by simpa using h
          rw [if_neg (not_lt.2 hab)]
          exact hhi
        · obtain ⟨rfl, rfl⟩ : i0 = b ∧ i1 = a := by simpa using h
          by_cases hgt : i0 > i1
          · rw [if_pos hgt]; exact hhi
          · rw [if_neg hgt]
            have : i0 = i1 := le_antisymm (not_lt.1 hgt) hab
            rw [← this]; exact hhi

/-- The scanline loop, when every scanline has an intersection slice `f y`: it
returns the pixels set so far followed by those of each scanline. -/
theorem fillRows_mem {α : Type} [LinearOrderedField α] [FloorRing α]
    (points : List (Vec2 α)) (f : Int → List α) (ys : List Int) :
    ∀ acc : List (Int × Int), (∀ y ∈ ys, scanIntersections points y = some (f y)) →
      ∃ out, fillRows points ys acc = some out ∧
        ∀ p, p ∈ out ↔ p ∈ acc ∨ ∃ y ∈ ys, p ∈ fillScanline (f y) y := by
  induction ys with
  | nil =>
    intro acc _
    exact ⟨acc, rfl, by simp⟩
  | cons y rest ih =>
    intro acc hf
    obtain ⟨out, hout, hmem⟩ := ih (acc ++ fillScanline (f y) y)
      (fun y2 hy2 => hf y2 (by simp [hy2]))
    refine ⟨out, ?_, ?_⟩
    · simp only [fillRows, hf y (by simp), Option.some_bind, Option.bind_some]
      exact hout
    · intro p
      rw [hmem p]
      simp only [List.mem_append, List.mem_cons, exists_eq_or_imp, or_assoc]

/-- The bounding box of a triple. -/
theorem boundingBox_triple {α : Type} [LinearOrderedField α] [FloorRing α]
    (p0 p1 p2 : Vec2 α) :
    boundingBox [p0, p1, p2] = some (
      (if toInt (min p0.X (min p1.X p2.X)) < 0 then 0 else toInt (min p0.X (min p1.X p2.X))),
      (if toInt (min p0.Y (min p1.Y p2.Y)) < 0 then 0 else toInt (min p0.Y (min p1.Y p2.Y))),
      (if toInt (max p0.X (max p1.X p2.X)) ≥ 600 then 599
        else toInt (max p0.X (max p1.X p2.X))),
      (if toInt (max p0.Y (max p1.Y p2.Y)) ≥ 600 then 599
        else toInt (max p0.Y (max p1.Y p2.Y)))) := by
  have i0 : index [p0, p1, p2] 0 = some p0 := by simp [index]
  have i1 : index [p0, p1, p2] 1 = some p1 := by simp [index]
  have i2 : index [p0, p1, p2] 2 = some p2 := by simp [index]
  simp only [boundingBox, i0, i1, i2, Option.bind_eq_bind, Option.some_bind, Option.bind_some,
    initialWidth, initialHeight]
  rfl

/-- The fill pass on a triple, pixel by pixel. -/
theorem fillPass_triple_mem {α : Type} [LinearOrderedField α] [FloorRing α]
    (p0 p1 p2 : Vec2 α) :
    ∃ pixels, fillPass [p0, p1, p2] = some pixels ∧
      ∀ x y : Int, (x, y) ∈ pixels ↔
        0 ≤ x ∧ x < 600 ∧ 0 ≤ y ∧ y < 600 ∧
        toInt (min p0.Y (min p1.Y p2.Y)) ≤ y ∧ y ≤ toInt (max p0.Y (max p1.Y p2.Y)) ∧
        ∃ a b, a ≤ b ∧
          (scanIntersections [p0, p1, p2] y = some [a, b] ∨
            scanIntersections [p0, p1, p2] y = some [b, a]) ∧
          toInt a ≤ x ∧ x ≤ toInt b := by
  have hbox := boundingBox_triple p0 p1 p2
  obtain ⟨out, hout, hmem⟩ := fillRows_mem [p0, p1, p2]
    (fun y => ((([(p0, p1), (p1, p2), (p2, p0)] : List (Vec2 α × Vec2 α)).filter
        fun e => crosses e.1 e.2 y).map fun e => edgeX e.1 e.2 y))
    (loopRange
      (if toInt (min p0.Y (min p1.Y p2.Y)) < 0 then 0 else toInt (min p0.Y (min p1.Y p2.Y)))
      (if toInt (max p0.Y (max p1.Y p2.Y)) ≥ 600 then 599
        else toInt (max p0.Y (max p1.Y p2.Y))))
    [] (fun y _ => scanIntersections_triple p0 p1 p2 y)
  refine ⟨out, ?_, ?_⟩
  · simp only [fillPass, hbox, Option.some_bind, Option.bind_some]
    exact hout
  · intro x y
    rw [hmem (x, y)]
    simp only [List.not_mem_nil, false_or, mem_fillScanline, mem_loopRange,
      scanIntersections_triple, Option.some.injEq]
    constructor
    · rintro ⟨y2, ⟨hlo, hhi⟩, hy, h0, h600, hex⟩
      subst hy
      refine ⟨h0, h600, ?_, ?_, ?_, ?_, hex⟩
      · split_ifs at hlo <;> omega
      · split_ifs at hhi <;> omega
      · split_ifs at hlo <;> omega
      · split_ifs at hhi <;> omega
    · rintro ⟨h0, h600, hy0, hy600, hlo, hhi, hex⟩
      refine ⟨y, ⟨?_, ?_⟩, rfl, h0, h600, hex⟩
      · split_ifs <;> omega
      · split_ifs <;> omega

theorem toInt_intCast {α : Type} [LinearOrderedField α] [FloorRing α] (n : Int) :
    toInt (n : α) = n := by
  unfold toInt
  split_ifs <;> simp

theorem toInt_natCast {α : Type} [LinearOrderedField α] [FloorRing α] (n : Nat) :
    toInt (n : α) = n := by
  have := toInt_intCast (α := α) (n : Int)
  simpa using this

theorem toInt_zero {α : Type} [LinearOrderedField α] [FloorRing α] : toInt (0 : α) = 0 := by
  simpa using toInt_intCast (α := α) 0

theorem toInt_ofNat {α : Type} [LinearOrderedField α] [FloorRing α] (n : Nat) [n.AtLeastTwo] :
    toInt (OfNat.ofNat n : α) = OfNat.ofNat n := by
  simpa using toInt_natCast (α := α) n

/-- The intersections of the triangle `(0,0), (4,0), (0,4)` on scanline `y`. -/
theorem scanIntersections_right_triangle {α : Type} [LinearOrderedField α] (y : Int) :
    scanIntersections [(⟨0, 0⟩ : Vec2 α), ⟨4, 0⟩, ⟨0, 4⟩] y =
      some (if 0 ≤ y ∧ y < 4 then [(((4 - y : Int)) : α), 0] else []) := by
  rw [scanIntersections_triple]
  have h4 : ((4 : Int) : α) = 4 := by norm_num
  by_cases h0 : 0 ≤ y
  · by_cases h1 : y < 4
    · have c0 : (0 : α) ≤ (y : α) := by exact_mod_cast h0
      have c1 : (y : α) < 4 := by rw [← h4]; exact_mod_cast h1
      simp [List.filter, crosses, edgeX, h0, h1, c0, c1, not_lt_of_le c0]
      ring
    · have c1 : ¬ ((y : α) < 4) := by rw [← h4]; exact_mod_cast h1
      have c0 : (0 : α) ≤ (y : α) := by exact_mod_cast h0
      simp [List.filter, crosses, h0, h1, c0, c1, not_lt_of_le c0]
  · have c0 : ¬ ((0 : α) ≤ (y : α)) := by exact_mod_cast h0
    have c1 : ¬ ((4 : α) ≤ (y : α)) := by
      intro h; exact c0 (le_trans (by norm_num) h)
    simp [List.filter, crosses, h0, c0, c1]

theorem fillScanline_right_triangle {α : Type} [LinearOrderedField α] [FloorRing α]
    (k y : Int) (hk : 0 ≤ k) (hk4 : k ≤ 4) :
    fillScanline [((k : Int) : α), 0] y = (loopRange 0 k).map fun x => (x, y) := by
  have hk0 : (0 : α) ≤ (k : α) := by exact_mod_cast hk
  have e0 : toInt (0 : α) = 0 := toInt_zero
  have ek : toInt ((k : Int) : α) = k := toInt_intCast k
  have hf : (loopRange 0 k).filter (fun x => decide (0 ≤ x ∧ x < initialWidth)) = loopRange 0 k := by
    rw [List.filter_eq_self]
    intro x hx
    rw [mem_loopRange] at hx
    simp only [initialWidth, decide_eq_true_eq]
    omega
  by_cases h : (k : α) > 0
  · simp only [fillScanline, if_pos h, e0, ek, hf]
  · have hkz : (k : α) = 0 := le_antisymm (not_lt.1 h) hk0
    have hkz2 : k = 0 := by exact_mod_cast hkz
    subst hkz2
    simp only [fillScanline, if_neg h, e0, ek, hf]

/-- The fill pass on the triangle `(0,0), (4,0), (0,4)`, as a list. -/
theorem fillPass_right_triangle_eq {α : Type} [LinearOrderedField α] [FloorRing α] :
    fillPass [(⟨0, 0⟩ : Vec2 α), ⟨4, 0⟩, ⟨0, 4⟩] =
      some [(0, 0), (1, 0), (2, 0), (3, 0), (4, 0), (0, 1), (1, 1), (2, 1), (3, 1),
            (0, 2), (1, 2), (2, 2), (0, 3), (1, 3)] := by
  have hbox : boundingBox [(⟨0, 0⟩ : Vec2 α), ⟨4, 0⟩, ⟨0, 4⟩] = some (0, 0, 4, 4) := by
    rw [boundingBox_triple]
    have e1 : min (0 : α) (min 4 0) = 0 := by norm_num
    have e2 : min (0 : α) (min 0 4) = 0 := by norm_num
    have e3 : max (0 : α) (max 4 0) = 4 := by norm_num
    have e4 : max (0 : α) (max 0 4) = 4 := by norm_num
    have t4 : toInt (4 : α) = 4 := toInt_ofNat 4
    simp only [e1, e2, e3, e4, toInt_zero, t4]
    decide
  have hr : loopRange 0 4 = [0, 1, 2, 3, 4] := by decide
  have s0 := fillScanline_right_triangle (α := α) 4 0 (by decide) (by decide)
  have s1 := fillScanline_right_triangle (α := α) 3 1 (by decide) (by decide)
  have s2 := fillScanline_right_triangle (α := α) 2 2 (by decide) (by decide)
  have s3 := fillScanline_right_triangle (α := α) 1 3 (by decide) (by decide)
  have r4 : loopRange 0 4 = [0, 1, 2, 3, 4] := by decide
  have r3 : loopRange 0 3 = [0, 1, 2, 3] := by decide
  have r2 : loopRange 0 2 = [0, 1, 2] := by decide
  have r1 : loopRange 0 1 = [0, 1] := by decide
  rw [r4] at s0
  rw [r3] at s1
  rw [r2] at s2
  rw [r1] at s3
  have q0 : scanIntersections [(⟨0, 0⟩ : Vec2 α), ⟨4, 0⟩, ⟨0, 4⟩] 0 = some [((4 : Int) : α), 0] := by
    rw [scanIntersections_right_triangle, if_pos (by decide)]; rfl
  have q1 : scanIntersections [(⟨0, 0⟩ : Vec2 α), ⟨4, 0⟩, ⟨0, 4⟩] 1 = some [((3 : Int) : α), 0] := by
    rw [scanIntersections_right_triangle, if_pos (by decide)]; rfl
  have q2 : scanIntersections [(⟨0, 0⟩ : Vec2 α), ⟨4, 0⟩, ⟨0, 4⟩] 2 = some [((2 : Int) : α), 0] := by
    rw [scanIntersections_right_triangle, if_pos (by decide)]; rfl
  have q3 : scanIntersections [(⟨0, 0⟩ : Vec2 α), ⟨4, 0⟩, ⟨0, 4⟩] 3 = some [((1 : Int) : α), 0] := by
    rw [scanIntersections_right_triangle, if_pos (by decide)]; rfl
  have q4 : scanIntersections [(⟨0, 0⟩ : Vec2 α), ⟨4, 0⟩, ⟨0, 4⟩] 4 = some [] := by
    rw [scanIntersections_right_triangle, if_neg (by decide)]
  have s4 : fillScanline ([] : List α) 4 = [] := rfl
  rw [fillPass, hbox, Option.some_bind]
  show fillRows _ (loopRange 0 4) [] = _
  rw [hr]
  simp only [fillRows, q0, q1, q2, q3, q4, s0, s1, s2, s3, s4, Option.some_bind]
  rfl

/-- C8, as the code has it: on the triangle `(0,0), (4,0), (0,4)` the fill pass sets
exactly the 14 integer pixels with `x ≥ 0`, `0 ≤ y ≤ 3` and `x + y ≤ 4`; scanline 4
has no crossing, so the apex pixel `(0, 4)` is not set. -/
theorem fillPass_right_triangle {α : Type} [LinearOrderedField α] [FloorRing α] :
    ∃ pixels, fillPass [(⟨0, 0⟩ : Vec2 α), ⟨4, 0⟩, ⟨0, 4⟩] = some pixels ∧
      pixels.length = 14 ∧ pixels.Nodup ∧
      ∀ x y : Int, (x, y) ∈ pixels ↔ 0 ≤ x ∧ 0 ≤ y ∧ y ≤ 3 ∧ x + y ≤ 4 := by
  refine ⟨_, fillPass_right_triangle_eq, rfl, by decide, ?_⟩
  intro x y
  constructor
  · intro h
    simp only [List.mem_cons, Prod.mk.injEq, List.mem_singleton, List.not_mem_nil,
      or_false] at h
    omega
  · rintro ⟨hx, hy, hy3, hxy⟩
    have hx4 : x ≤ 4 := by omega
    interval_cases y <;> interval_cases x <;> first | decide | omega

/-- C8, the claim as stated fails: over the rationals the fill pass on the triangle
`(0,0), (4,0), (0,4)` does not set exactly the pixels with `x ≥ 0`, `y ≥ 0`,
`x + y ≤ 4`, because `(0, 4)` is one of those and is not set. -/
theorem fillPass_right_triangle_misses_apex :
    ¬ ∃ pixels, fillPass [(⟨0, 0⟩ : Vec2 ℚ), ⟨4, 0⟩, ⟨0, 4⟩] = some pixels ∧
      ∀ x y : Int, (x, y) ∈ pixels ↔ 0 ≤ x ∧ 0 ≤ y ∧ x + y ≤ 4 := by
  rintro ⟨pixels, hfill, hmem⟩
  rw [fillPass_right_triangle_eq] at hfill
  have hp := Option.some.inj hfill
  have h04 : ((0 : Int), (4 : Int)) ∈ pixels := (hmem 0 4).2 (by decide)
  rw [← hp] at h04
  revert h04
  decide

/-- The step count of `DrawLine` is never negative. -/
theorem toInt_nonneg {α : Type} [LinearOrderedField α] [FloorRing α] (x : α) (hx : 0 ≤ x) :
    0 ≤ toInt x := by
  unfold toInt
  rw [if_pos hx]
  exact Int.floor_nonneg.2 hx

/-- Converting a channel to `float64` and back to `uint8` gives the channel. -/
theorem toUint8_ofUint8 {α : Type} [LinearOrderedField α] [FloorRing α] (c : Fin 256) :
    toUint8 (ofUint8 c : α) = c := by
  apply Fin.ext
  have hc : c.val < 256 := c.isLt
  simp only [toUint8, ofUint8, toInt_natCast]
  omega

/-- C10: `lerpColor c1 c2 0` has the R, G, B channels of `c1`, `lerpColor c1 c2 1`
has the R, G, B channels of `c2`, and for every `t` the alpha of the result is 255. -/
theorem lerpColor_endpoints {α : Type} [LinearOrderedField α] [FloorRing α]
    (c1 c2 : RGBA) :
    ((lerpColor c1 c2 (0 : α)).R = c1.R ∧ (lerpColor c1 c2 (0 : α)).G = c1.G ∧
      (lerpColor c1 c2 (0 : α)).B = c1.B) ∧
    ((lerpColor c1 c2 (1 : α)).R = c2.R ∧ (lerpColor c1 c2 (1 : α)).G = c2.G ∧
      (lerpColor c1 c2 (1 : α)).B = c2.B) ∧
    ∀ t : α, (lerpColor c1 c2 t).A = 255 := by
  refine ⟨⟨?_, ?_, ?_⟩, ⟨?_, ?_, ?_⟩, fun t => rfl⟩ <;>
    simp only [lerpColor, sub_zero, mul_one, mul_zero, add_zero, sub_self, zero_add,
      toUint8_ofUint8]


/-! ## Levels of the mesh -/

/-- The outer loop run for `n + 1` passes is `n` passes followed by one more. -/
theorem subdivideLoop_succ {α : Type} [Field α] (sqrt : α → α) (n : Nat) :
    ∀ mesh : List (Point3D α) × List Face,
      subdivideLoop sqrt (n + 1) mesh = (subdivideLoop sqrt n mesh).bind (subdividePass sqrt) := by
  induction n with
  | zero =>
    intro mesh
    simp only [subdivideLoop, Option.some_bind]
    cases subdividePass sqrt mesh <;> rfl
  | succ n ih =>
    intro mesh
    show (subdividePass sqrt mesh).bind (subdivideLoop sqrt (n + 1)) = _
    cases h : subdividePass sqrt mesh with
    | none => simp [subdivideLoop, h]
    | some m =>
      rw [Option.some_bind, ih m]
      show _ = ((subdividePass sqrt mesh).bind (subdivideLoop sqrt n)).bind _
      rw [h, Option.some_bind]

/-- The mesh of level `n + 1` is one subdivision pass over the mesh of level `n`. -/
theorem createSphere_succ {α : Type} [Field α] (sqrt : α → α) (n : Nat) :
    createSphere sqrt ((n : Int) + 1) = (createSphere sqrt (n : Int)).bind (subdividePass sqrt) := by
  have h1 : ((n : Int) + 1).toNat = n + 1 := by omega
  have h2 : (n : Int).toNat = n := by omega
  simp only [createSphere, h1, h2]
  exact subdivideLoop_succ sqrt n _

/-- C12: for every level `n ≥ 0`, `createSphere n` returns exactly
`12 + 20 * (4 ^ n - 1)` vertices, and the next level keeps these vertices in place
and appends three new ones per face of level `n` (no midpoint is shared). -/
theorem createSphere_vertex_count {α : Type} [Field α] (sqrt : α → α) (n : Nat) :
    ∃ vs fs, createSphere sqrt (n : Int) = some (vs, fs) ∧
      vs.length = 12 + 20 * (4 ^ n - 1) ∧
      ∃ vs2 fs2 ext, createSphere sqrt ((n : Int) + 1) = some (vs2, fs2) ∧
        vs2 = vs ++ ext ∧ ext.length = 3 * fs.length := by
  obtain ⟨vs, fs, h, -, hv, -, hok⟩ := createSphere_spec sqrt n
  obtain ⟨vs2, fs2, hpass, hv2, -, ⟨ext, hext⟩, -⟩ :=
    subdivideFaces_spec sqrt fs vs [] hok (by simp)
  refine ⟨vs, fs, h, ?_, vs2, fs2, ext, ?_, hext, ?_⟩
  · have : 1 ≤ 4 ^ n := Nat.one_le_pow _ _ (by decide)
    omega
  · rw [createSphere_succ, h]
    exact hpass
  · have := congrArg List.length hext
    rw [List.length_append] at this
    omega

/-! ## Edge midpoints are never zero -/

theorem dot_comm {α : Type} [Field α] (p q : Point3D α) : dot p q = dot q p := by
  simp only [dot]; ring

theorem dot_self_nonneg {α : Type} [LinearOrderedField α] (p : Point3D α) : 0 ≤ dot p p := by
  simp only [dot]
  nlinarith [mul_self_nonneg p.X, mul_self_nonneg p.Y, mul_self_nonneg p.Z]

theorem dot_midpoint_left {α : Type} [Field α] (a b w : Point3D α) :
    dot (midpoint a b) w = (dot a w + dot b w) / 2 := by
  simp only [dot, midpoint]; ring

theorem dot_midpoint_right {α : Type} [Field α] (w a b : Point3D α) :
    dot w (midpoint a b) = (dot w a + dot w b) / 2 := by
  simp only [dot, midpoint]; ring

theorem dot_normalize_left {α : Type} [Field α] (sqrt : α → α) (u w : Point3D α) :
    dot (normalize sqrt u) w = dot u w / sqrt (dot u u) := by
  simp only [dot, normalize]; ring

theorem dot_normalize_right {α : Type} [Field α] (sqrt : α → α) (w u : Point3D α) :
    dot w (normalize sqrt u) = dot w u / sqrt (dot u u) := by
  simp only [dot, normalize]; ring

/-- The midpoint of two vectors with positive dot product has positive squared
length. -/
theorem dot_midpoint_self_pos {α : Type} [LinearOrderedField α] (a b : Point3D α)
    (hab : 0 < dot a b) : 0 < dot (midpoint a b) (midpoint a b) := by
  rw [dot_midpoint_left, dot_midpoint_right, dot_midpoint_right, dot_comm b a]
  have ha := dot_self_nonneg a
  have hb := dot_self_nonneg b
  linarith

/-- A corner vertex and the normalised midpoint of one of its edges. -/
theorem dot_corner_mid_pos {α : Type} [LinearOrderedField α] (sqrt : α → α)
    (hsqrt : ∀ x : α, 0 < x → 0 < sqrt x) (a b : Point3D α) (hab : 0 < dot a b) :
    0 < dot a (normalize sqrt (midpoint a b)) ∧ 0 < dot b (normalize sqrt (midpoint a b)) ∧
    0 < dot (normalize sqrt (midpoint a b)) a ∧ 0 < dot (normalize sqrt (midpoint a b)) b := by
  have hL := hsqrt _ (dot_midpoint_self_pos a b hab)
  have ha := dot_self_nonneg a
  have hb := dot_self_nonneg b
  have hba : 0 < dot b a := by rw [dot_comm]; exact hab
  have h1 : 0 < dot a (normalize sqrt (midpoint a b)) := by
    rw [dot_normalize_right, dot_midpoint_right]
    exact div_pos (by linarith) hL
  have h2 : 0 < dot b (normalize sqrt (midpoint a b)) := by
    rw [dot_normalize_right, dot_midpoint_right]
    exact div_pos (by linarith) hL
  exact ⟨h1, h2, by rw [dot_comm]; exact h1, by rw [dot_comm]; exact h2⟩

/-- The normalised midpoints of two edges `(a, b)` and `(c, d)` whose endpoints have
dot products of positive sum across the edges. -/
theorem dot_mid_mid_pos {α : Type} [LinearOrderedField α] (sqrt : α → α)
    (hsqrt : ∀ x : α, 0 < x → 0 < sqrt x) (a b c d : Point3D α)
    (hab : 0 < dot a b) (hcd : 0 < dot c d)
    (hpos : 0 < dot a c + dot a d + dot b c + dot b d) :
    0 < dot (normalize sqrt (midpoint a b)) (normalize sqrt (midpoint c d)) := by
  have hL1 := hsqrt _ (dot_midpoint_self_pos a b hab)
  have hL2 := hsqrt _ (dot_midpoint_self_pos c d hcd)
  rw [dot_normalize_left, dot_normalize_right, dot_midpoint_left, dot_midpoint_right,
    dot_midpoint_right]
  exact div_pos (div_pos (by linarith) hL2) hL1

theorem index_append_of_some {β : Type} (xs ext : List β) (i : Int) (v : β)
    (h : index xs i = some v) : index (xs ++ ext) i = some v := by
  unfold index at h ⊢
  by_cases h0 : 0 ≤ i
  · rw [if_pos h0] at h ⊢
    rw [List.get?_eq_getElem?] at h ⊢
    have hlt : i.toNat < xs.length := by
      by_contra hge
      rw [List.getElem?_eq_none (by omega)] at h
      exact Option.noConfusion h
    rw [List.getElem?_append_left hlt]
    exact h
  · rw [if_neg h0] at h
    exact Option.noConfusion h

theorem index_append_new {β : Type} (xs : List β) (m1 m2 m3 : β) :
    index (xs ++ [m1, m2, m3]) (xs.length : Int) = some m1 ∧
    index (xs ++ [m1, m2, m3]) ((xs.length : Int) + 1) = some m2 ∧
    index (xs ++ [m1, m2, m3]) ((xs.length : Int) + 2) = some m3 := by
  have h0 : (0 : Int) ≤ (xs.length : Int) := by omega
  have h1 : (0 : Int) ≤ (xs.length : Int) + 1 := by omega
  have h2 : (0 : Int) ≤ (xs.length : Int) + 2 := by omega
  have t0 : ((xs.length : Int)).toNat = xs.length := by omega
  have t1 : ((xs.length : Int) + 1).toNat = xs.length + 1 := by omega
  have t2 : ((xs.length : Int) + 2).toNat = xs.length + 2 := by omega
  refine ⟨?_, ?_, ?_⟩
  · simp only [index, if_pos h0, t0, List.get?_eq_getElem?]
    rw [List.getElem?_append_right (le_refl _)]
    simp
  · simp only [index, if_pos h1, t1, List.get?_eq_getElem?]
    rw [List.getElem?_append_right (by omega)]
    simp
  · simp only [index, if_pos h2, t2, List.get?_eq_getElem?]
    rw [List.getElem?_append_right (by omega)]
    simp

theorem FaceAcute.append {α : Type} [LinearOrderedField α] {vs : List (Point3D α)} {f : Face}
    (h : FaceAcute vs f) (ext : List (Point3D α)) : FaceAcute (vs ++ ext) f := by
  obtain ⟨a, b, c, va, vb, vc, hf, ha, hb, hc, h1, h2, h3⟩ := h
  exact ⟨a, b, c, va, vb, vc, hf, index_append_of_some _ _ _ _ ha,
    index_append_of_some _ _ _ _ hb, index_append_of_some _ _ _ _ hc, h1, h2, h3⟩

/-- The four faces made from a face with pairwise positive dot products have
pairwise positive dot products too. -/
theorem newFaces_acute {α : Type} [LinearOrderedField α] (sqrt : α → α)
    (hsqrt : ∀ x : α, 0 < x → 0 < sqrt x) (vs : List (Point3D α)) (a b c : Int)
    (va vb vc : Point3D α)
    (ha : index vs a = some va) (hb : index vs b = some vb) (hc : index vs c = some vc)
    (hab : 0 < dot va vb) (hbc : 0 < dot vb vc) (hca : 0 < dot vc va) :
    ∀ f ∈ [[a, (vs.length : Int), (vs.length : Int) + 2],
           [b, (vs.length : Int) + 1, (vs.length : Int)],
           [c, (vs.length : Int) + 2, (vs.length : Int) + 1],
           [(vs.length : Int), (vs.length : Int) + 1, (vs.length : Int) + 2]],
      FaceAcute (vs ++ [normalize sqrt (midpoint va vb), normalize sqrt (midpoint vb vc),
        normalize sqrt (midpoint vc va)]) f := by
  obtain ⟨n0, n1, n2⟩ := index_append_new vs (normalize sqrt (midpoint va vb))
    (normalize sqrt (midpoint vb vc)) (normalize sqrt (midpoint vc va))
  have ia := index_append_of_some vs [normalize sqrt (midpoint va vb),
    normalize sqrt (midpoint vb vc), normalize sqrt (midpoint vc va)] a va ha
  have ib := index_append_of_some vs [normalize sqrt (midpoint va vb),
    normalize sqrt (midpoint vb vc), normalize sqrt (midpoint vc va)] b vb hb
  have ic := index_append_of_some vs [normalize sqrt (midpoint va vb),
    normalize sqrt (midpoint vb vc), normalize sqrt (midpoint vc va)] c vc hc
  have hba : 0 < dot vb va := by rw [dot_comm]; exact hab
  have hcb : 0 < dot vc vb := by rw [dot_comm]; exact hbc
  have hac : 0 < dot va vc := by rw [dot_comm]; exact hca
  have haa := dot_self_nonneg va
  have hbb := dot_self_nonneg vb
  have hcc := dot_self_nonneg vc
  obtain ⟨ab1, ab2, ab3, ab4⟩ := dot_corner_mid_pos sqrt hsqrt va vb hab
  obtain ⟨bc1, bc2, bc3, bc4⟩ := dot_corner_mid_pos sqrt hsqrt vb vc hbc
  obtain ⟨ca1, ca2, ca3, ca4⟩ := dot_corner_mid_pos sqrt hsqrt vc va hca
  have m01_12 := dot_mid_mid_pos sqrt hsqrt va vb vb vc hab hbc (by linarith)
  have m12_20 := dot_mid_mid_pos sqrt hsqrt vb vc vc va hbc hca (by linarith)
  have m20_01 := dot_mid_mid_pos sqrt hsqrt vc va va vb hca hab (by linarith)
  have m01_20 : 0 < dot (normalize sqrt (midpoint va vb)) (normalize sqrt (midpoint vc va)) := by
    rw [dot_comm]; exact m20_01
  have m12_01 : 0 < dot (normalize sqrt (midpoint vb vc)) (normalize sqrt (midpoint va vb)) := by
    rw [dot_comm]; exact m01_12
  have m20_12 : 0 < dot (normalize sqrt (midpoint vc va)) (normalize sqrt (midpoint vb vc)) := by
    rw [dot_comm]; exact m12_20
  intro f hf
  simp only [List.mem_cons, List.mem_singleton, List.not_mem_nil, or_false] at hf
  rcases hf with rfl | rfl | rfl | rfl
  · exact ⟨_, _, _, _, _, _, rfl, ia, n0, n2, ab1, m01_20, ca4⟩
  · exact ⟨_, _, _, _, _, _, rfl, ib, n1, n0, bc1, m12_01, ab4⟩
  · exact ⟨_, _, _, _, _, _, rfl, ic, n2, n1, ca1, m20_12, bc4⟩
  · exact ⟨_, _, _, _, _, _, rfl, n0, n1, n2, m01_12, m12_20, m20_01⟩

/-- The inner loop keeps every face acute. -/
theorem subdivideFaces_acute {α : Type} [LinearOrderedField α] (sqrt : α → α)
    (hsqrt : ∀ x : α, 0 < x → 0 < sqrt x) (faces : List Face) :
    ∀ (vs : List (Point3D α)) (nf : List Face),
      (∀ f ∈ faces, FaceAcute vs f) → (∀ f ∈ nf, FaceAcute vs f) →
      ∃ vs2 nf2, subdivideFaces sqrt faces (vs, nf) = some (vs2, nf2) ∧
        ∀ f ∈ nf2, FaceAcute vs2 f := by
  induction faces with
  | nil =>
    intro vs nf _ hnf
    exact ⟨vs, nf, rfl, hnf⟩
  | cons face rest ih =>
    intro vs nf hfaces hnf
    obtain ⟨a, b, c, va, vb, vc, rfl, ha, hb, hc, hab, hbc, hca⟩ := hfaces face (by simp)
    have hstep := subdivideFace_eq sqrt vs nf a b c va vb vc ha hb hc
    have hnew := newFaces_acute sqrt hsqrt vs a b c va vb vc ha hb hc hab hbc hca
    obtain ⟨vs2, nf2, hrun, hok⟩ := ih
      (vs ++ [normalize sqrt (midpoint va vb), normalize sqrt (midpoint vb vc),
        normalize sqrt (midpoint vc va)])
      (nf ++ [[a, (vs.length : Int), (vs.length : Int) + 2],
        [b, (vs.length : Int) + 1, (vs.length : Int)],
        [c, (vs.length : Int) + 2, (vs.length : Int) + 1],
        [(vs.length : Int), (vs.length : Int) + 1, (vs.length : Int) + 2]])
      (fun f hf => (hfaces f (by simp [hf])).append _)
      (fun f hf => by
        rcases List.mem_append.1 hf with h | h
        · exact (hnf f h).append _
        · exact hnew f h)
    refine ⟨vs2, nf2, ?_, hok⟩
    simp only [subdivideFaces, hstep, Option.some_bind, Option.bind_some]
    exact hrun

/-- The outer loop keeps every face acute. -/
theorem subdivideLoop_acute {α : Type} [LinearOrderedField α] (sqrt : α → α)
    (hsqrt : ∀ x : α, 0 < x → 0 < sqrt x) (n : Nat) :
    ∀ (vs : List (Point3D α)) (fs : List Face), (∀ f ∈ fs, FaceAcute vs f) →
      ∃ vs2 fs2, subdivideLoop sqrt n (vs, fs) = some (vs2, fs2) ∧
        ∀ f ∈ fs2, FaceAcute vs2 f := by
  induction n with
  | zero =>
    intro vs fs hfs
    exact ⟨vs, fs, rfl, hfs⟩
  | succ n ih =>
    intro vs fs hfs
    obtain ⟨vs1, fs1, hpass, hok1⟩ := subdivideFaces_acute sqrt hsqrt fs vs [] hfs (by simp)
    obtain ⟨vs2, fs2, hloop, hok2⟩ := ih vs1 fs1 hok1
    refine ⟨vs2, fs2, ?_, hok2⟩
    simp only [subdivideLoop, subdividePass, hpass, Option.some_bind, Option.bind_some]
    exact hloop

set_option maxHeartbeats 1000000 in
/-- Every seed face is acute when `1 < sqrt 5`. -/
theorem seedFaces_acute {α : Type} [LinearOrderedField α] (sqrt : α → α)
    (h5 : 1 < sqrt 5) : ∀ f ∈ seedFaces, FaceAcute (seedVertices sqrt) f := by
  have ht : 1 < goldenT sqrt := by
    unfold goldenT
    linarith
  have ht2 : 1 < goldenT sqrt * goldenT sqrt := by nlinarith
  intro f hf
  simp only [seedFaces, List.mem_cons, List.mem_singleton, List.not_mem_nil, or_false] at hf
  rcases hf with h | h | h | h | h | h | h | h | h | h | h | h | h | h | h | h | h | h | h | h <;>
    subst h <;>
    refine ⟨_, _, _, _, _, _, rfl, rfl, rfl, rfl, ?_, ?_, ?_⟩ <;>
    simp only [dot, mul_zero, zero_mul, add_zero, zero_add, mul_one, one_mul, mul_neg, neg_mul,
      neg_neg, neg_zero] <;>
    linarith

/-- Every face of every level is acute, for a square root that is positive on
positive numbers and exceeds 1 at 5. -/
theorem createSphere_acute {α : Type} [LinearOrderedField α] (sqrt : α → α)
    (hsqrt : ∀ x : α, 0 < x → 0 < sqrt x) (h5 : 1 < sqrt 5) (n : Nat) :
    ∃ vs fs, createSphere sqrt (n : Int) = some (vs, fs) ∧ ∀ f ∈ fs, FaceAcute vs f := by
  obtain ⟨vs, fs, h, hok⟩ :=
    subdivideLoop_acute sqrt hsqrt n (seedVertices sqrt) seedFaces (seedFaces_acute sqrt h5)
  refine ⟨vs, fs, ?_, hok⟩
  simpa [createSphere] using h

theorem one_lt_sqrt_five : (1 : ℝ) < Real.sqrt 5 := by
  rw [Real.lt_sqrt (by norm_num)]
  norm_num

/-- C13: for every level `n ≥ 0`, the pass that builds level `n + 1` runs over the
faces of `createSphere n`, and for each of these faces the three edge midpoints
handed to `normalize` are non-zero vectors, so the length that `normalize` divides
by is not zero. -/
theorem createSphere_midpoints_nonzero (n : Nat) :
    ∃ vs fs, createSphere Real.sqrt (n : Int) = some (vs, fs) ∧
      createSphere Real.sqrt ((n : Int) + 1) = subdividePass Real.sqrt (vs, fs) ∧
      ∀ f ∈ fs, ∃ a b c va vb vc, f = [a, b, c] ∧
        index vs a = some va ∧ index vs b = some vb ∧ index vs c = some vc ∧
        ∀ m ∈ [midpoint va vb, midpoint vb vc, midpoint vc va],
          m ≠ ⟨0, 0, 0⟩ ∧ Real.sqrt (m.X * m.X + m.Y * m.Y + m.Z * m.Z) ≠ 0 := by
  obtain ⟨vs, fs, h, hok⟩ :=
    createSphere_acute Real.sqrt (fun x hx => Real.sqrt_pos.2 hx) one_lt_sqrt_five n
  refine ⟨vs, fs, h, ?_, ?_⟩
  · rw [createSphere_succ, h, Option.some_bind]
  · intro f hf
    obtain ⟨a, b, c, va, vb, vc, hfe, ha, hb, hc, hab, hbc, hca⟩ := hok f hf
    refine ⟨a, b, c, va, vb, vc, hfe, ha, hb, hc, ?_⟩
    have key : ∀ p q : Point3D ℝ, 0 < dot p q →
        midpoint p q ≠ ⟨0, 0, 0⟩ ∧
        Real.sqrt ((midpoint p q).X * (midpoint p q).X + (midpoint p q).Y * (midpoint p q).Y +
          (midpoint p q).Z * (midpoint p q).Z) ≠ 0 := by
      intro p q hpq
      have hpos := dot_midpoint_self_pos p q hpq
      constructor
      · intro h0
        rw [h0] at hpos
        simp [dot] at hpos
      · exact ne_of_gt (Real.sqrt_pos.2 hpos)
    intro m hm
    simp only [List.mem_cons, List.mem_singleton, List.not_mem_nil, or_false] at hm
    rcases hm with rfl | rfl | rfl
    · exact key va vb hab
    · exact key vb vc hbc
    · exact key vc va hca


/-! ## Vertex animator lemmas -/

theorem length_animateLoop {α : Type} [Field α] [DecidableEq α] (sqrt sin : α → α) (time : α)
    (vertices : List (Point3D α)) :
    ∀ i : Int, (animateLoop sqrt sin time i vertices).length = vertices.length := by
  induction vertices with
  | nil => intro i; rfl
  | cons v rest ih => intro i; simp only [animateLoop, List.length_cons, ih]

theorem getElem?_animateLoop {α : Type} [Field α] [DecidableEq α] (sqrt sin : α → α) (time : α)
    (vertices : List (Point3D α)) :
    ∀ (i : Int) (k : Nat) (v : Point3D α), vertices[k]? = some v →
      (animateLoop sqrt sin time i vertices)[k]? =
        some (animateVertex sqrt sin time (i + (k : Int)) v) := by
  induction vertices with
  | nil => intro i k v h; simp at h
  | cons w rest ih =>
    intro i k v h
    cases k with
    | zero =>
      simp only [List.getElem?_cons_zero, Option.some.injEq] at h
      subst h
      simp [animateLoop]
    | succ k =>
      simp only [List.getElem?_cons_succ] at h
      have := ih (i + 1) k v h
      simp only [animateLoop, List.getElem?_cons_succ, this]
      congr 2
      push_cast
      ring

/-- A vertex is returned as it is when its length is not zero and the sine of
its phase is zero. -/
theorem animateVertex_of_sin_zero {α : Type} [Field α] [DecidableEq α] (sqrt sin : α → α)
    (time : α) (i : Int) (v : Point3D α)
    (hlen : sqrt (v.X * v.X + v.Y * v.Y + v.Z * v.Z) ≠ 0)
    (hsin : sin (1.0 * time + (i : α) * 0.1) = 0) :
    animateVertex sqrt sin time i v = some v := by
  simp only [animateVertex, if_neg hlen, hsin, mul_zero, add_zero]

/-- A vertex of length zero has no numeric image. -/
theorem animateVertex_of_length_zero {α : Type} [Field α] [DecidableEq α] (sqrt sin : α → α)
    (time : α) (i : Int) (v : Point3D α)
    (hlen : sqrt (v.X * v.X + v.Y * v.Y + v.Z * v.Z) = 0) :
    animateVertex sqrt sin time i v = none := by
  simp only [animateVertex, if_pos hlen]

theorem real_length_ne_zero (v : Point3D ℝ) (hv : v ≠ ⟨0, 0, 0⟩) :
    Real.sqrt (v.X * v.X + v.Y * v.Y + v.Z * v.Z) ≠ 0 := by
  have hpos : 0 < v.X * v.X + v.Y * v.Y + v.Z * v.Z := by
    by_contra hle
    have hx := mul_self_nonneg v.X
    have hy := mul_self_nonneg v.Y
    have hz := mul_self_nonneg v.Z
    have h0x : v.X * v.X = 0 := by linarith
    have h0y : v.Y * v.Y = 0 := by linarith
    have h0z : v.Z * v.Z = 0 := by linarith
    apply hv
    cases v with
    | mk x y z =>
      simp only [mul_self_eq_zero] at h0x h0y h0z
      simp only [h0x, h0y, h0z]
  exact ne_of_gt (Real.sqrt_pos.2 hpos)

theorem phase_arg_eq (time : ℝ) (i : Nat) :
    (1.0 : ℝ) * time + (((0 : Int) + (i : Int) : Int) : ℝ) * 0.1 = time + 0.1 * (i : ℝ) := by
  push_cast
  norm_num
  ring

/-- Over the reals `animateVertices` keeps the length of the list, and returns the
vertex at index `i` as it is when that vertex is not the zero vector and
`sin(t + 0.1*i) = 0`. -/
theorem animateVertices_fixed_of_ne_zero (vertices : List (Point3D ℝ)) (time : ℝ) :
    (animateVertices Real.sqrt Real.sin vertices time).length = vertices.length ∧
    (∀ (i : Nat) (v : Point3D ℝ), vertices[i]? = some v → v ≠ ⟨0, 0, 0⟩ →
      Real.sin (time + 0.1 * (i : ℝ)) = 0 →
      (animateVertices Real.sqrt Real.sin vertices time)[i]? = some (some v)) ∧
    (∀ (v : Point3D ℝ) (rest : List (Point3D ℝ)), v ≠ ⟨0, 0, 0⟩ →
      (animateVertices Real.sqrt Real.sin (v :: rest) 0)[0]? = some (some v)) ∧
    ((∀ (i : Nat) (v : Point3D ℝ), vertices[i]? = some v →
        v ≠ ⟨0, 0, 0⟩ ∧ Real.sin (time + 0.1 * (i : ℝ)) = 0) →
      animateVertices Real.sqrt Real.sin vertices time = vertices.map some) := by
  have hlen := length_animateLoop Real.sqrt Real.sin time vertices 0
  have hfix : ∀ (t : ℝ) (vs : List (Point3D ℝ)) (i : Nat) (v : Point3D ℝ),
      vs[i]? = some v → v ≠ ⟨0, 0, 0⟩ → Real.sin (t + 0.1 * (i : ℝ)) = 0 →
      (animateVertices Real.sqrt Real.sin vs t)[i]? = some (some v) := by
    intro t vs i v hv hne hsin
    have h := getElem?_animateLoop Real.sqrt Real.sin t vs 0 i v hv
    rw [animateVertices, h,
      animateVertex_of_sin_zero Real.sqrt Real.sin t _ v (real_length_ne_zero v hne)
        (by rw [phase_arg_eq]; exact hsin)]
  refine ⟨hlen, hfix time vertices, ?_, ?_⟩
  · intro v rest hne
    exact hfix 0 (v :: rest) 0 v (by simp) hne (by simp)
  · intro hall
    apply List.ext_getElem?
    intro k
    cases hk : vertices[k]? with
    | some v =>
      rw [hfix time vertices k v hk (hall k v hk).1 (hall k v hk).2]
      simp [hk]
    | none =>
      have hge : vertices.length ≤ k := by
        by_contra hlt
        rw [List.getElem?_eq_getElem (by omega)] at hk
        exact Option.noConfusion hk
      rw [List.getElem?_eq_none (by rw [animateVertices, hlen]; exact hge)]
      simp [hk]

/-- The image of a vertex whose length is not zero, as a scalar multiple. -/
theorem animateVertex_scalar {α : Type} [Field α] [DecidableEq α] (sqrt sin : α → α)
    (time : α) (i : Int) (v : Point3D α)
    (hlen : sqrt (v.X * v.X + v.Y * v.Y + v.Z * v.Z) ≠ 0) :
    animateVertex sqrt sin time i v =
      some ⟨v.X * (1 + 0.02 * sin (1.0 * time + (i : α) * 0.1) /
              sqrt (v.X * v.X + v.Y * v.Y + v.Z * v.Z)),
            v.Y * (1 + 0.02 * sin (1.0 * time + (i : α) * 0.1) /
              sqrt (v.X * v.X + v.Y * v.Y + v.Z * v.Z)),
            v.Z * (1 + 0.02 * sin (1.0 * time + (i : α) * 0.1) /
              sqrt (v.X * v.X + v.Y * v.Y + v.Z * v.Z))⟩ := by
  simp only [animateVertex, if_neg hlen, Option.some.injEq, Point3D.mk.injEq]
  refine ⟨?_, ?_, ?_⟩ <;> (field_simp; ring)

/-- C20: over the reals, for every vertex list, time `t` and index `i` whose input
vertex `v` is non-zero, the output of `animateVertices` at `i` is the scalar multiple
`v * (1 + 0.02*sin(t + 0.1*i) / |v|)`, and its distance from `v` is
`|0.02*sin(t + 0.1*i)|`, at most 0.02. -/
theorem animateVertices_radial (vertices : List (Point3D ℝ)) (time : ℝ) (i : Nat)
    (v : Point3D ℝ) (hv : vertices[i]? = some v) (hne : v ≠ ⟨0, 0, 0⟩) :
    ∃ w : Point3D ℝ,
      (animateVertices Real.sqrt Real.sin vertices time)[i]? = some (some w) ∧
      w = ⟨v.X * (1 + 0.02 * Real.sin (time + 0.1 * (i : ℝ)) /
              Real.sqrt (v.X * v.X + v.Y * v.Y + v.Z * v.Z)),
           v.Y * (1 + 0.02 * Real.sin (time + 0.1 * (i : ℝ)) /
              Real.sqrt (v.X * v.X + v.Y * v.Y + v.Z * v.Z)),
           v.Z * (1 + 0.02 * Real.sin (time + 0.1 * (i : ℝ)) /
              Real.sqrt (v.X * v.X + v.Y * v.Y + v.Z * v.Z))⟩ ∧
      Real.sqrt ((w.X - v.X) ^ 2 + (w.Y - v.Y) ^ 2 + (w.Z - v.Z) ^ 2) =
        |0.02 * Real.sin (time + 0.1 * (i : ℝ))| ∧
      |0.02 * Real.sin (time + 0.1 * (i : ℝ))| ≤ 0.02 := by
  have hL := real_length_ne_zero v hne
  have h := getElem?_animateLoop Real.sqrt Real.sin time vertices 0 i v hv
  rw [animateVertex_scalar Real.sqrt Real.sin time _ v hL, phase_arg_eq] at h
  refine ⟨_, h, rfl, ?_, ?_⟩
  · have hsq : Real.sqrt (v.X * v.X + v.Y * v.Y + v.Z * v.Z) ^ 2 =
        v.X * v.X + v.Y * v.Y + v.Z * v.Z :=
      Real.sq_sqrt (by nlinarith [mul_self_nonneg v.X, mul_self_nonneg v.Y, mul_self_nonneg v.Z])
    rw [← Real.sqrt_sq_eq_abs]
    congr 1
    simp only
    field_simp
    rw [hsq]
    ring
  · rw [abs_mul]
    have h1 : |Real.sin (time + 0.1 * (i : ℝ))| ≤ 1 := Real.abs_sin_le_one _
    have h2 : |(0.02 : ℝ)| = 0.02 := abs_of_pos (by norm_num)
    rw [h2]
    nlinarith

/-- The hypotheses of `animateVertices_radial` hold for the one-vertex list
`[(1,0,0)]` at index 0 and time 0. -/
theorem animateVertices_radial_witness :
    (([⟨1, 0, 0⟩] : List (Point3D ℝ))[0]? = some ⟨1, 0, 0⟩ ∧
      (⟨1, 0, 0⟩ : Point3D ℝ) ≠ ⟨0, 0, 0⟩) ∧
    ∃ w : Point3D ℝ,
      (animateVertices Real.sqrt Real.sin [⟨1, 0, 0⟩] 0)[0]? = some (some w) ∧
      Real.sqrt ((w.X - 1) ^ 2 + (w.Y - 0) ^ 2 + (w.Z - 0) ^ 2) =
        |0.02 * Real.sin (0 + 0.1 * ((0 : Nat) : ℝ))| :=
  have h1 : ([⟨1, 0, 0⟩] : List (Point3D ℝ))[0]? = some ⟨1, 0, 0⟩ := by simp
  have h2 : (⟨1, 0, 0⟩ : Point3D ℝ) ≠ ⟨0, 0, 0⟩ := by simp
  ⟨⟨h1, h2⟩,
    (animateVertices_radial [⟨1, 0, 0⟩] 0 0 ⟨1, 0, 0⟩ h1 h2).elim
      fun w hw => ⟨w, hw.1, hw.2.2.1⟩⟩


/-! ## Degenerate triangles and line strokes -/

/-- An edge that passes the crossing test has endpoints of different Y. -/
theorem crosses_ne {α : Type} [LinearOrderedField α] (pi pj : Vec2 α) (y : Int)
    (h : crosses pi pj y = true) : pj.Y ≠ pi.Y := by
  simp only [crosses, decide_eq_true_eq] at h
  rcases h with ⟨h1, h2⟩ | ⟨h1, h2⟩
  · exact ne_of_gt (lt_of_le_of_lt h1 h2)
  · exact ne_of_lt (lt_of_le_of_lt h1 h2)

/-- C14: whenever an edge passes the crossing test of `DrawOptimizedTriangle` its
endpoints have different Y, so the divisor of the x-interpolation is not zero; and
for a triple whose three points have the same Y no scanline has a crossing and the
fill pass sets no pixel. -/
theorem crossing_divisor_nonzero {α : Type} [LinearOrderedField α] [FloorRing α] :
    (∀ (pi pj : Vec2 α) (y : Int), crosses pi pj y = true →
      pj.Y ≠ pi.Y ∧ pj.Y - pi.Y ≠ 0) ∧
    (∀ p0 p1 p2 : Vec2 α, p0.Y = p1.Y → p1.Y = p2.Y →
      (∀ y : Int, scanIntersections [p0, p1, p2] y = some []) ∧
      fillPass [p0, p1, p2] = some []) := by
  constructor
  · intro pi pj y h
    have := crosses_ne pi pj y h
    exact ⟨this, sub_ne_zero.2 this⟩
  · intro p0 p1 p2 h01 h12
    have hscan : ∀ y : Int, scanIntersections [p0, p1, p2] y = some [] := by
      intro y
      rw [scanIntersections_triple]
      have c01 : crosses p0 p1 y = false := by
        cases h : crosses p0 p1 y
        · rfl
        · exact absurd h01.symm (crosses_ne p0 p1 y h)
      have c12 : crosses p1 p2 y = false := by
        cases h : crosses p1 p2 y
        · rfl
        · exact absurd h12.symm (crosses_ne p1 p2 y h)
      have c20 : crosses p2 p0 y = false := by
        cases h : crosses p2 p0 y
        · rfl
        · exact absurd (h01.trans h12) (crosses_ne p2 p0 y h)
      simp [List.filter, c01, c12, c20]
    refine ⟨hscan, ?_⟩
    obtain ⟨pixels, hfill, hmem⟩ := fillPass_triple_mem p0 p1 p2
    have hnil : pixels = [] := by
      apply List.eq_nil_iff_forall_not_mem.2
      rintro ⟨x, y⟩ hxy
      obtain ⟨-, -, -, -, -, -, a, b, -, hab, -⟩ := (hmem x y).1 hxy
      rw [hscan y] at hab
      rcases hab with h | h <;> simp at h
    rw [hfill, hnil]

theorem floor_le_toInt {α : Type} [LinearOrderedField α] [FloorRing α] (x : α) :
    ⌊x⌋ ≤ toInt x ∧ toInt x ≤ ⌈x⌉ := by
  unfold toInt
  split_ifs
  · exact ⟨le_refl _, Int.floor_le_ceil x⟩
  · exact ⟨Int.floor_le_ceil x, le_refl _⟩

/-- The sample `i` of `DrawLine` on a segment with `steps ≠ 0`. -/
theorem getElem?_DrawLine {α : Type} [LinearOrderedField α] [FloorRing α]
    (x1 y1 x2 y2 : α) (col : RGBA) (h : max |x2 - x1| |y2 - y1| ≠ 0) (i : Nat) :
    (DrawLine x1 y1 x2 y2 col)[i]? =
      if (i : Int) ≤ toInt (max |x2 - x1| |y2 - y1|) then
        some ⟨toInt (x1 + (x2 - x1) / max |x2 - x1| |y2 - y1| * (i : α)),
              toInt (y1 + (y2 - y1) / max |x2 - x1| |y2 - y1| * (i : α)), col⟩
      else none := by
  have hs : 0 ≤ toInt (max |x2 - x1| |y2 - y1|) :=
    toInt_nonneg _ (le_trans (abs_nonneg _) (le_max_left _ _))
  split_ifs with hi
  · have hget := getElem?_loopRange 0 (toInt (max |x2 - x1| |y2 - y1|)) i (by omega)
    simp only [DrawLine, if_neg h, List.getElem?_map, hget, Option.map_some']
    have e : (((0 + (i : Int)) : Int) : α) = (i : α) := by push_cast; ring
    rw [e]
  · apply List.getElem?_eq_none
    simp only [DrawLine, if_neg h, List.length_map, length_loopRange]
    omega

/-- C16, as the code has it: every pixel that `DrawLine` plots is its sample point
with each coordinate truncated toward zero, that is the floor of a non-negative
coordinate and the ceiling of a negative one. -/
theorem DrawLine_pixel_truncation {α : Type} [LinearOrderedField α] [FloorRing α]
    (x1 y1 x2 y2 : α) (col : RGBA) :
    (max |x2 - x1| |y2 - y1| = 0 →
      DrawLine x1 y1 x2 y2 col =
        [⟨if 0 ≤ x1 then ⌊x1⌋ else ⌈x1⌉, if 0 ≤ y1 then ⌊y1⌋ else ⌈y1⌉, col⟩]) ∧
    (max |x2 - x1| |y2 - y1| ≠ 0 →
      ∀ i : Nat, (i : Int) ≤ toInt (max |x2 - x1| |y2 - y1|) →
        ∃ sx sy : α,
          sx = x1 + (x2 - x1) / max |x2 - x1| |y2 - y1| * (i : α) ∧
          sy = y1 + (y2 - y1) / max |x2 - x1| |y2 - y1| * (i : α) ∧
          (DrawLine x1 y1 x2 y2 col)[i]? =
            some ⟨if 0 ≤ sx then ⌊sx⌋ else ⌈sx⌉, if 0 ≤ sy then ⌊sy⌋ else ⌈sy⌉, col⟩) := by
  constructor
  · intro h
    simp only [DrawLine, h, if_true, toInt]
  · intro h i hi
    refine ⟨_, _, rfl, rfl, ?_⟩
    rw [getElem?_DrawLine x1 y1 x2 y2 col h, if_pos hi]
    rfl

/-- C16, the claim as stated fails: on the segment from `(-1/2, 0)` to `(1/2, 0)`
sample 0 is `(-1/2, 0)` and `DrawLine` plots pixel `(0, 0)`, while the floor of
`-1/2` is `-1`. -/
theorem DrawLine_negative_sample_not_floor :
    (-1 / 2 : ℚ) + ((1 / 2 : ℚ) - (-1 / 2)) / max |(1 / 2 : ℚ) - (-1 / 2)| |(0 : ℚ) - 0| *
        ((0 : Nat) : ℚ) = -1 / 2 ∧
    (DrawLine (-1 / 2 : ℚ) 0 (1 / 2) 0 ⟨255, 255, 255, 255⟩)[0]? =
      some ⟨0, 0, ⟨255, 255, 255, 255⟩⟩ ∧
    ⌊(-1 / 2 : ℚ)⌋ = -1 ∧
    (DrawLine (-1 / 2 : ℚ) 0 (1 / 2) 0 ⟨255, 255, 255, 255⟩)[0]? ≠
      some ⟨⌊(-1 / 2 : ℚ)⌋, ⌊(0 : ℚ)⌋, ⟨255, 255, 255, 255⟩⟩ := by
  have hs : max |(1 / 2 : ℚ) - (-1 / 2)| |(0 : ℚ) - 0| = 1 := by norm_num
  have hne : max |(1 / 2 : ℚ) - (-1 / 2)| |(0 : ℚ) - 0| ≠ 0 := by rw [hs]; norm_num
  have hfl : ⌊(-1 / 2 : ℚ)⌋ = -1 := by
    rw [Int.floor_eq_iff]
    norm_num
  have hce : toInt (-1 / 2 : ℚ) = 0 := by
    have hneg : ¬ (0 : ℚ) ≤ -1 / 2 := by norm_num
    rw [toInt, if_neg hneg, Int.ceil_eq_iff]
    norm_num
  have hget : (DrawLine (-1 / 2 : ℚ) 0 (1 / 2) 0 ⟨255, 255, 255, 255⟩)[0]? =
      some ⟨0, 0, ⟨255, 255, 255, 255⟩⟩ := by
    rw [getElem?_DrawLine _ _ _ _ _ hne, hs]
    have t1 : toInt (1 : ℚ) = 1 := by simpa using toInt_intCast (α := ℚ) 1
    have e1 : (-1 / 2 : ℚ) + ((1 / 2 : ℚ) - (-1 / 2)) / 1 * ((0 : Nat) : ℚ) = -1 / 2 := by
      norm_num
    have e2 : (0 : ℚ) + ((0 : ℚ) - 0) / 1 * ((0 : Nat) : ℚ) = 0 := by norm_num
    rw [t1, e1, e2, hce, toInt_zero]
    rfl
  refine ⟨by rw [hs]; norm_num, hget, hfl, ?_⟩
  rw [hget, hfl]
  simp


/-! ## Frame orchestrator lemmas -/

/-- The drag part of `Update` changes none of the view fields. -/
theorem updateDrag_view {α : Type} [LinearOrderedField α] [FloorRing α] (s : ViewState α)
    (inp : TickInput α) :
    (updateDrag s inp).1.scale = s.scale ∧ (updateDrag s inp).1.angle = s.angle ∧
    (updateDrag s inp).1.needsRedraw = s.needsRedraw ∧
    (updateDrag s inp).1.lastScale = s.lastScale ∧
    (updateDrag s inp).1.lastAngle = s.lastAngle := by
  simp only [updateDrag]
  split_ifs <;> simp

theorem applyKeys_view {α : Type} [LinearOrderedField α] (s : ViewState α) (inp : TickInput α) :
    (applyKeys s inp).scale = s.scale ∧ (applyKeys s inp).angle = s.angle ∧
    (applyKeys s inp).isDragging = s.isDragging ∧
    (applyKeys s inp).needsRedraw = s.needsRedraw ∧
    (applyKeys s inp).lastScale = s.lastScale ∧ (applyKeys s inp).lastAngle = s.lastAngle := by
  simp only [applyKeys]
  split_ifs <;> simp

theorem applyScroll_view {α : Type} [LinearOrderedField α] (s : ViewState α)
    (inp : TickInput α) :
    (applyScroll s inp).angle = s.angle ∧ (applyScroll s inp).isDragging = s.isDragging ∧
    (applyScroll s inp).lastScale = s.lastScale ∧ (applyScroll s inp).lastAngle = s.lastAngle ∧
    (inp.scrollY = 0 → applyScroll s inp = s) := by
  simp only [applyScroll]
  split_ifs with h <;> simp [h]

theorem applyRotation_view {α : Type} [LinearOrderedField α] (s : ViewState α) :
    (applyRotation s).scale = s.scale ∧ (applyRotation s).lastScale = s.lastScale ∧
    (applyRotation s).lastAngle = s.lastAngle ∧
    (s.isDragging = false → (applyRotation s).needsRedraw = true) ∧
    (s.isDragging = true → applyRotation s = s) := by
  simp only [applyRotation]
  cases h : s.isDragging <;> simp

theorem applyThreshold_view {α : Type} [LinearOrderedField α] (s : ViewState α) :
    (applyThreshold s).scale = s.scale ∧ (applyThreshold s).angle = s.angle ∧
    (s.needsRedraw = true → (applyThreshold s).needsRedraw = true) ∧
    ((|s.lastScale - s.scale| > 0.1 ∨ |s.lastAngle - s.angle| > 0.01) →
      (applyThreshold s).needsRedraw = true) ∧
    (|s.lastScale - s.scale| ≤ 0.1 → |s.lastAngle - s.angle| ≤ 0.01 → applyThreshold s = s) ∧
    |(applyThreshold s).lastScale - (applyThreshold s).scale| ≤ 0.1 ∧
    |(applyThreshold s).lastAngle - (applyThreshold s).angle| ≤ 0.01 := by
  simp only [applyThreshold]
  split_ifs with h
  · refine ⟨rfl, rfl, fun _ => rfl, fun _ => rfl, ?_, ?_, ?_⟩
    · intro h1 h2
      rcases h with h | h
      · exact absurd h1 (not_le.2 h)
      · exact absurd h2 (not_le.2 h)
    · simp only [sub_self, abs_zero]; norm_num
    · simp only [sub_self, abs_zero]; norm_num
  · rw [not_or, not_lt, not_lt] at h
    exact ⟨rfl, rfl, fun h => h, fun h2 => by
      rcases h2 with h2 | h2
      · exact absurd h.1 (not_le.2 h2)
      · exact absurd h.2 (not_le.2 h2), fun _ _ => rfl, h.1, h.2⟩

/-- The view fields after `Update` are those after the threshold block. -/
theorem Update_view {α : Type} [LinearOrderedField α] [FloorRing α] (s : ViewState α)
    (inp : TickInput α) :
    (Update s inp).1.scale = (updateView s inp).scale ∧
    (Update s inp).1.angle = (updateView s inp).angle ∧
    (Update s inp).1.needsRedraw = (updateView s inp).needsRedraw ∧
    (Update s inp).1.lastScale = (updateView s inp).lastScale ∧
    (Update s inp).1.lastAngle = (updateView s inp).lastAngle :=
  updateDrag_view (updateView s inp) inp

/-- While dragging with zero scroll the blocks before the threshold test leave the
state as the key tests left it. -/
theorem rotation_scroll_idle {α : Type} [LinearOrderedField α] (s : ViewState α)
    (inp : TickInput α) (hd : s.isDragging = true) (hs : inp.scrollY = 0) :
    applyRotation (applyScroll (applyKeys s inp) inp) = applyKeys s inp := by
  have hk := applyKeys_view s inp
  have hsc := (applyScroll_view (applyKeys s inp) inp).2.2.2.2 hs
  rw [hsc]
  exact (applyRotation_view (applyKeys s inp)).2.2.2.2 (by rw [hk.2.2.1]; exact hd)

/-- While dragging with zero scroll, a stored value beyond its threshold makes
`Update` set `needsRedraw`. -/
theorem Update_dragging_beyond {α : Type} [LinearOrderedField α] [FloorRing α]
    (s : ViewState α) (inp : TickInput α) (hd : s.isDragging = true) (hs : inp.scrollY = 0)
    (h : |s.lastScale - s.scale| > 0.1 ∨ |s.lastAngle - s.angle| > 0.01) :
    (Update s inp).1.needsRedraw = true := by
  have hk := applyKeys_view s inp
  rw [(Update_view s inp).2.2.1, updateView, rotation_scroll_idle s inp hd hs]
  apply (applyThreshold_view (applyKeys s inp)).2.2.2.1
  rw [hk.1, hk.2.1, hk.2.2.2.2.1, hk.2.2.2.2.2]
  exact h

/-- The redraw decision of `Update` in an arbitrary state: `needsRedraw` is set
when dragging was not active or a threshold is exceeded; while dragging with zero
scroll, scale and angle are kept, and `needsRedraw` is kept when the stored
`lastScale` and `lastAngle` are within 0.1 and 0.01 of scale and angle; after
`Update` they are, as they are in the initial state. -/
theorem Update_redraw_facts {α : Type} [LinearOrderedField α] [FloorRing α] (s : ViewState α)
    (inp : TickInput α) :
    (s.isDragging = false → (Update s inp).1.needsRedraw = true) ∧
    ((|s.lastScale - (Update s inp).1.scale| > 0.1 ∨
        |s.lastAngle - (Update s inp).1.angle| > 0.01) →
      (Update s inp).1.needsRedraw = true) ∧
    (s.isDragging = true → inp.scrollY = 0 →
      (Update s inp).1.scale = s.scale ∧ (Update s inp).1.angle = s.angle ∧
      (|s.lastScale - s.scale| ≤ 0.1 → |s.lastAngle - s.angle| ≤ 0.01 →
        (Update s inp).1.needsRedraw = s.needsRedraw)) ∧
    (|(Update s inp).1.lastScale - (Update s inp).1.scale| ≤ 0.1 ∧
      |(Update s inp).1.lastAngle - (Update s inp).1.angle| ≤ 0.01) ∧
    (|(initialState : ViewState α).lastScale - (initialState : ViewState α).scale| ≤ 0.1 ∧
      |(initialState : ViewState α).lastAngle - (initialState : ViewState α).angle| ≤ 0.01) := by
  obtain ⟨uS, uA, uN, uLS, uLA⟩ := Update_view s inp
  obtain ⟨kS, kA, kD, kN, kLS, kLA⟩ := applyKeys_view s inp
  obtain ⟨cA, cD, cLS, cLA, cId⟩ := applyScroll_view (applyKeys s inp) inp
  obtain ⟨rS, rLS, rLA, rN, rId⟩ := applyRotation_view (applyScroll (applyKeys s inp) inp)
  obtain ⟨tS, tA, tKeep, tN, tId, tW1, tW2⟩ :=
    applyThreshold_view (applyRotation (applyScroll (applyKeys s inp) inp))
  refine ⟨?_, ?_, ?_, ?_, ?_⟩
  · intro hd
    rw [uN]
    exact tKeep (rN (by rw [cD, kD]; exact hd))
  · intro h
    rw [uN]
    apply tN
    rw [uS, uA] at h
    simp only [updateView] at h
    rw [tS, tA] at h
    rw [rLS, rLA, cLS, cLA, kLS, kLA]
    exact h
  · intro hd hs
    have hidle := rotation_scroll_idle s inp hd hs
    refine ⟨?_, ?_, ?_⟩
    · rw [uS]
      simp only [updateView]
      rw [tS, hidle, kS]
    · rw [uA]
      simp only [updateView]
      rw [tA, hidle, kA]
    · intro h1 h2
      rw [uN]
      simp only [updateView]
      rw [hidle] at tId ⊢
      rw [tId (by rw [kLS, kS]; exact h1) (by rw [kLA, kA]; exact h2), kN]
  · rw [uLS, uS, uLA, uA]
    exact ⟨tW1, tW2⟩
  · simp only [initialState, sub_self, abs_zero]
    norm_num

/-! ## Face colour and projection -/

/-- The two rotations of `drawSphere` keep the squared length of a vertex. -/
theorem rotateVertex_norm (angle : ℝ) (v : Point3D ℝ) :
    (rotateVertex Real.cos Real.sin angle v).X ^ 2 +
      (rotateVertex Real.cos Real.sin angle v).Y ^ 2 +
      (rotateVertex Real.cos Real.sin angle v).Z ^ 2 = v.X ^ 2 + v.Y ^ 2 + v.Z ^ 2 := by
  have h1 := Real.sin_sq_add_cos_sq angle
  have h2 := Real.sin_sq_add_cos_sq (angle * 0.8)
  simp only [rotateVertex]
  linear_combination
    (v.Y ^ 2 + (v.X * Real.sin angle + v.Z * Real.cos angle) ^ 2) * h2 +
      (v.X ^ 2 + v.Z ^ 2) * h1

/-- C19: over the reals, for every vertex, angle and scale, the two sequential
rotations of `drawSphere` preserve the squared Euclidean length, so the screen point
`(X, Y)` satisfies `(X - 300)^2 + (Y - 300)^2 ≤ scale^2 * |v|^2`; and at angle 0 the
screen point is `(v.X*scale + 300, v.Y*scale + 300)`. -/
theorem projectVertex_bound (angle scale : ℝ) (v : Point3D ℝ) :
    ((rotateVertex Real.cos Real.sin angle v).X ^ 2 +
      (rotateVertex Real.cos Real.sin angle v).Y ^ 2 +
      (rotateVertex Real.cos Real.sin angle v).Z ^ 2 = v.X ^ 2 + v.Y ^ 2 + v.Z ^ 2) ∧
    ((projectVertex Real.cos Real.sin angle scale v).X - 300) ^ 2 +
      ((projectVertex Real.cos Real.sin angle scale v).Y - 300) ^ 2 ≤
        scale ^ 2 * (v.X ^ 2 + v.Y ^ 2 + v.Z ^ 2) ∧
    projectVertex Real.cos Real.sin 0 scale v = ⟨v.X * scale + 300, v.Y * scale + 300⟩ := by
  have hn := rotateVertex_norm angle v
  refine ⟨hn, ?_, ?_⟩
  · rw [← hn]
    simp only [projectVertex, sphereX, sphereY, add_sub_cancel_right]
    nlinarith [mul_nonneg (sq_nonneg scale)
      (sq_nonneg (rotateVertex Real.cos Real.sin angle v).Z)]
  · simp [projectVertex, rotateVertex, sphereX, sphereY]


/-! ## Rounding lemmas -/

theorem roundHalfEven_of_lt (q : ℚ) (m : Int) (h1 : (m : ℚ) - 1 / 2 < q)
    (h2 : q < (m : ℚ) + 1 / 2) : roundHalfEven q = m := by
  unfold roundHalfEven
  by_cases hq : (m : ℚ) ≤ q
  · have hf : ⌊q⌋ = m := by
      rw [Int.floor_eq_iff]
      constructor <;> linarith
    rw [hf, if_pos (by linarith)]
  · have hf : ⌊q⌋ = m - 1 := by
      rw [Int.floor_eq_iff]
      push_cast
      constructor <;> linarith
    rw [hf]
    push_cast
    rw [if_neg (by linarith), if_pos (by linarith)]
    ring

theorem round64_zero : round64 0 = 0 := by
  simp [round64]

/-- The rounding of a positive `x` with `2 ^ k ≤ x < 2 ^ (k + 1)`, from the rounding
of its 53-bit significand. -/
theorem round64_eq (x : ℚ) (k m : Int) (h1 : (2 : ℚ) ^ k ≤ x) (h2 : x < (2 : ℚ) ^ (k + 1))
    (hm : roundHalfEven (x / (2 : ℚ) ^ (k - 52)) = m) :
    round64 x = (m : ℚ) * (2 : ℚ) ^ (k - 52) := by
  have hpos : (0 : ℚ) < x := lt_of_lt_of_le (by positivity) h1
  have hx : x ≠ 0 := ne_of_gt hpos
  have habs : |x| = x := abs_of_pos hpos
  have hlog : Int.log 2 |x| = k := by
    rw [habs]
    apply le_antisymm
    · have := (Int.lt_zpow_iff_log_lt (b := 2) (by norm_num) hpos).1 (by exact_mod_cast h2)
      omega
    · exact (Int.zpow_le_iff_le_log (b := 2) (by norm_num) hpos).1 (by exact_mod_cast h1)
  simp only [round64, if_neg hx, hlog, hm]

/-- A power of two times an integer below `2 ^ 53`, here the small integers that the
examples use, is not changed by rounding. -/
theorem round64_small :
    round64 1 = 1 ∧ round64 2 = 2 ∧ round64 3 = 3 ∧ round64 4 = 4 ∧ round64 15 = 15 ∧
    round64 22 = 22 := by
  refine ⟨?_, ?_, ?_, ?_, ?_, ?_⟩
  · rw [round64_eq 1 0 (2 ^ 52) (by norm_num) (by norm_num)
      (roundHalfEven_of_lt _ _ (by norm_num) (by norm_num))]
    norm_num
  · rw [round64_eq 2 1 (2 ^ 52) (by norm_num) (by norm_num)
      (roundHalfEven_of_lt _ _ (by norm_num) (by norm_num))]
    norm_num
  · rw [round64_eq 3 1 (3 * 2 ^ 51) (by norm_num) (by norm_num)
      (roundHalfEven_of_lt _ _ (by norm_num) (by norm_num))]
    norm_num
  · rw [round64_eq 4 2 (2 ^ 52) (by norm_num) (by norm_num)
      (roundHalfEven_of_lt _ _ (by norm_num) (by norm_num))]
    norm_num
  · rw [round64_eq 15 3 (15 * 2 ^ 49) (by norm_num) (by norm_num)
      (roundHalfEven_of_lt _ _ (by norm_num) (by norm_num))]
    norm_num
  · rw [round64_eq 22 4 (22 * 2 ^ 48) (by norm_num) (by norm_num)
      (roundHalfEven_of_lt _ _ (by norm_num) (by norm_num))]
    norm_num

/-! ## The exact functions are the exact instances -/

theorem DrawLineWith_exact {α : Type} [LinearOrderedField α] [FloorRing α]
    (x1 y1 x2 y2 : α) (col : RGBA) :
    DrawLineWith exactArith x1 y1 x2 y2 col = DrawLine x1 y1 x2 y2 col := rfl

theorem lerpColorWith_exact {α : Type} [LinearOrderedField α] [FloorRing α]
    (c1 c2 : RGBA) (t : α) : lerpColorWith exactArith c1 c2 t = lerpColor c1 c2 t := rfl

theorem edgeXWith_exact {α : Type} [LinearOrderedField α] (pi pj : Vec2 α) (y : Int) :
    edgeXWith exactArith pi pj y = edgeX pi pj y := rfl

theorem edgeLoopWith_exact {α : Type} [LinearOrderedField α] (points : List (Vec2 α))
    (y : Int) (edges : List Int) :
    ∀ xs : List α, edgeLoopWith exactArith points y edges xs = edgeLoop points y edges xs := by
  induction edges with
  | nil => intro xs; rfl
  | cons i rest ih =>
    intro xs
    have hstep : edgeStepWith exactArith points y xs i = edgeStep points y xs i := rfl
    simp only [edgeLoopWith, edgeLoop, hstep]
    cases edgeStep points y xs i with
    | none => rfl
    | some xs2 => exact ih xs2

theorem scanIntersectionsWith_exact {α : Type} [LinearOrderedField α] (points : List (Vec2 α))
    (y : Int) : scanIntersectionsWith exactArith points y = scanIntersections points y :=
  edgeLoopWith_exact points y _ []

theorem fillRowsWith_exact {α : Type} [LinearOrderedField α] [FloorRing α]
    (points : List (Vec2 α)) (ys : List Int) :
    ∀ acc : List (Int × Int), fillRowsWith exactArith points ys acc = fillRows points ys acc := by
  induction ys with
  | nil => intro acc; rfl
  | cons y rest ih =>
    intro acc
    simp only [fillRowsWith, fillRows, scanIntersectionsWith_exact]
    cases scanIntersections points y with
    | none => rfl
    | some xs => exact ih _

/-- The fill pass with exact arithmetic is the exact fill pass. -/
theorem fillPassWith_exact {α : Type} [LinearOrderedField α] [FloorRing α]
    (points : List (Vec2 α)) : fillPassWith exactArith points = fillPass points := by
  simp only [fillPassWith, fillPass, fillRowsWith_exact]

/-! ## The fill pass for any arithmetic -/

/-- The edge loop on a triple with the arithmetic `A`: the intersections are the
interpolated x of the edges `(p0,p1)`, `(p1,p2)`, `(p2,p0)` that pass the crossing
test, in this order, each computed with the operations of `A`. -/
theorem scanIntersectionsWith_triple {α : Type} [LinearOrderedField α] (A : Arith α)
    (p0 p1 p2 : Vec2 α) (y : Int) :
    scanIntersectionsWith A [p0, p1, p2] y =
      some (((([(p0, p1), (p1, p2), (p2, p0)] : List (Vec2 α × Vec2 α)).filter
        fun e => decide ((e.1.Y ≤ (y : α) ∧ e.2.Y > (y : α)) ∨
          (e.2.Y ≤ (y : α) ∧ e.1.Y > (y : α)))).map
        fun e => A.add e.1.X
          (A.div (A.mul (A.sub (y : α) e.1.Y) (A.sub e.2.X e.1.X)) (A.sub e.2.Y e.1.Y)))) := by
  have hl : ((([p0, p1, p2] : List (Vec2 α)).length : Nat) : Int) = 3 := rfl
  have i0 : index [p0, p1, p2] 0 = some p0 := by simp [index]
  have i1 : index [p0, p1, p2] 1 = some p1 := by simp [index]
  have i2 : index [p0, p1, p2] 2 = some p2 := by simp [index]
  have m0 : ((0 : Int) + 1) % 3 = 1 := by decide
  have m1 : ((1 : Int) + 1) % 3 = 2 := by decide
  have m2 : ((2 : Int) + 1) % 3 = 0 := by decide
  have h32 : (3 : Int) - 1 = 2 := by decide
  have c01 : crosses p0 p1 y = decide ((p0.Y ≤ (y : α) ∧ p1.Y > (y : α)) ∨
      (p1.Y ≤ (y : α) ∧ p0.Y > (y : α))) := rfl
  have c12 : crosses p1 p2 y = decide ((p1.Y ≤ (y : α) ∧ p2.Y > (y : α)) ∨
      (p2.Y ≤ (y : α) ∧ p1.Y > (y : α))) := rfl
  have c20 : crosses p2 p0 y = decide ((p2.Y ≤ (y : α) ∧ p0.Y > (y : α)) ∨
      (p0.Y ≤ (y : α) ∧ p2.Y > (y : α))) := rfl
  rw [scanIntersectionsWith, hl, h32, loopRange_zero_two]
  simp only [edgeLoopWith, edgeStepWith, edgeXWith, hl, m0, m1, m2, i0, i1, i2,
    Option.bind_eq_bind, Option.some_bind, Option.bind_some, List.filter, List.map]
  rw [← c01, ← c12, ← c20]
  cases crosses p0 p1 y <;> cases crosses p1 p2 y <;> cases crosses p2 p0 y <;> simp

/-- The scanline loop with the arithmetic `A`, when every scanline has an
intersection slice `f y`. -/
theorem fillRowsWith_mem {α : Type} [LinearOrderedField α] [FloorRing α] (A : Arith α)
    (points : List (Vec2 α)) (f : Int → List α) (ys : List Int) :
    ∀ acc : List (Int × Int), (∀ y ∈ ys, scanIntersectionsWith A points y = some (f y)) →
      ∃ out, fillRowsWith A points ys acc = some out ∧
        ∀ p, p ∈ out ↔ p ∈ acc ∨ ∃ y ∈ ys, p ∈ fillScanline (f y) y := by
  induction ys with
  | nil =>
    intro acc _
    exact ⟨acc, rfl, by simp⟩
  | cons y rest ih =>
    intro acc hf
    obtain ⟨out, hout, hmem⟩ := ih (acc ++ fillScanline (f y) y)
      (fun y2 hy2 => hf y2 (by simp [hy2]))
    refine ⟨out, ?_, ?_⟩
    · simp only [fillRowsWith, hf y (by simp), Option.some_bind, Option.bind_some]
      exact hout
    · intro p
      rw [hmem p]
      simp only [List.mem_append, List.mem_cons, exists_eq_or_imp, or_assoc]

/-- C7: for every arithmetic `A` (exact or float64), every triangle and every integer
pixel `(x, y)`: the crossings `xs` of scanline `y` are the x-coordinates
`Xi + (y - Yi) * (Xj - Xi) / (Yj - Yi)`, computed with `A`, of the cyclic edges with
`Yi ≤ y < Yj` or `Yj ≤ y < Yi`; the fill pass of `DrawOptimizedTriangle` sets pixel
`(x, y)` if and only if `0 ≤ x < 600`, `0 ≤ y < 600`, `y` lies between the truncated
minimum and maximum Y of the three points, `xs` consists of exactly two crossings
`a ≤ b`, and `int(a) ≤ x ≤ int(b)`.  In particular no fill pixel lies outside the
600x600 canvas and a scanline whose crossing count is not 2 gets none.  The calls of
`DrawOptimizedTriangle` are these pixels in the face colour followed by the three
outline strokes. -/
theorem fillPassWith_pixel_iff {α : Type} [LinearOrderedField α] [FloorRing α] (A : Arith α)
    (p0 p1 p2 : Vec2 α) (col : RGBA) :
    ∃ pixels, fillPassWith A [p0, p1, p2] = some pixels ∧
      DrawOptimizedTriangleWith A [p0, p1, p2] col =
        some (pixels.map (fun p => (⟨p.1, p.2, col⟩ : SetCall))
          ++ DrawLineWith A p0.X p0.Y p1.X p1.Y ⟨255, 255, 255, 255⟩
          ++ DrawLineWith A p1.X p1.Y p2.X p2.Y ⟨255, 255, 255, 255⟩
          ++ DrawLineWith A p2.X p2.Y p0.X p0.Y ⟨255, 255, 255, 255⟩) ∧
      ∀ x y : Int, ∃ xs : List α,
        xs = ((([(p0, p1), (p1, p2), (p2, p0)] : List (Vec2 α × Vec2 α)).filter
          fun e => decide ((e.1.Y ≤ (y : α) ∧ e.2.Y > (y : α)) ∨
            (e.2.Y ≤ (y : α) ∧ e.1.Y > (y : α)))).map
          fun e => A.add e.1.X
            (A.div (A.mul (A.sub (y : α) e.1.Y) (A.sub e.2.X e.1.X)) (A.sub e.2.Y e.1.Y))) ∧
        ((x, y) ∈ pixels ↔
          0 ≤ x ∧ x < 600 ∧ 0 ≤ y ∧ y < 600 ∧
          toInt (min p0.Y (min p1.Y p2.Y)) ≤ y ∧ y ≤ toInt (max p0.Y (max p1.Y p2.Y)) ∧
          ∃ a b, a ≤ b ∧ (xs = [a, b] ∨ xs = [b, a]) ∧ toInt a ≤ x ∧ x ≤ toInt b) ∧
        ((x, y) ∈ pixels → 0 ≤ x ∧ x < 600 ∧ 0 ≤ y ∧ y < 600) ∧
        (xs.length ≠ 2 → (x, y) ∉ pixels) := by
  have hbox := boundingBox_triple p0 p1 p2
  obtain ⟨out, hout, hmem⟩ := fillRowsWith_mem A [p0, p1, p2]
    (fun y => ((([(p0, p1), (p1, p2), (p2, p0)] : List (Vec2 α × Vec2 α)).filter
        fun (e : Vec2 α × Vec2 α) => decide ((e.1.Y ≤ (y : α) ∧ e.2.Y > (y : α)) ∨
          (e.2.Y ≤ (y : α) ∧ e.1.Y > (y : α)))).map
        fun (e : Vec2 α × Vec2 α) => A.add e.1.X
          (A.div (A.mul (A.sub (y : α) e.1.Y) (A.sub e.2.X e.1.X)) (A.sub e.2.Y e.1.Y))))
    (loopRange
      (if toInt (min p0.Y (min p1.Y p2.Y)) < 0 then 0 else toInt (min p0.Y (min p1.Y p2.Y)))
      (if toInt (max p0.Y (max p1.Y p2.Y)) ≥ 600 then 599
        else toInt (max p0.Y (max p1.Y p2.Y))))
    [] (fun y _ => scanIntersectionsWith_triple A p0 p1 p2 y)
  have hfill : fillPassWith A [p0, p1, p2] = some out := by
    simp only [fillPassWith, hbox, Option.some_bind, Option.bind_some]
    exact hout
  have hiff : ∀ x y : Int, ((x, y) ∈ out ↔
      0 ≤ x ∧ x < 600 ∧ 0 ≤ y ∧ y < 600 ∧
      toInt (min p0.Y (min p1.Y p2.Y)) ≤ y ∧ y ≤ toInt (max p0.Y (max p1.Y p2.Y)) ∧
      ∃ a b, a ≤ b ∧
        (((([(p0, p1), (p1, p2), (p2, p0)] : List (Vec2 α × Vec2 α)).filter
          fun (e : Vec2 α × Vec2 α) => decide ((e.1.Y ≤ (y : α) ∧ e.2.Y > (y : α)) ∨
            (e.2.Y ≤ (y : α) ∧ e.1.Y > (y : α)))).map
          fun (e : Vec2 α × Vec2 α) => A.add e.1.X
            (A.div (A.mul (A.sub (y : α) e.1.Y) (A.sub e.2.X e.1.X)) (A.sub e.2.Y e.1.Y)))
            = [a, b] ∨
         ((([(p0, p1), (p1, p2), (p2, p0)] : List (Vec2 α × Vec2 α)).filter
          fun (e : Vec2 α × Vec2 α) => decide ((e.1.Y ≤ (y : α) ∧ e.2.Y > (y : α)) ∨
            (e.2.Y ≤ (y : α) ∧ e.1.Y > (y : α)))).map
          fun (e : Vec2 α × Vec2 α) => A.add e.1.X
            (A.div (A.mul (A.sub (y : α) e.1.Y) (A.sub e.2.X e.1.X)) (A.sub e.2.Y e.1.Y)))
            = [b, a]) ∧
        toInt a ≤ x ∧ x ≤ toInt b) := by
    intro x y
    rw [hmem (x, y)]
    simp only [List.not_mem_nil, false_or, mem_fillScanline, mem_loopRange]
    constructor
    · rintro ⟨y2, ⟨hlo, hhi⟩, hy, h0, h600, hex⟩
      subst hy
      refine ⟨h0, h600, ?_, ?_, ?_, ?_, hex⟩
      · split_ifs at hlo <;> omega
      · split_ifs at hhi <;> omega
      · split_ifs at hlo <;> omega
      · split_ifs at hhi <;> omega
    · rintro ⟨h0, h600, hy0, hy600, hlo, hhi, hex⟩
      refine ⟨y, ⟨?_, ?_⟩, rfl, h0, h600, hex⟩
      · split_ifs <;> omega
      · split_ifs <;> omega
  refine ⟨out, hfill, ?_, ?_⟩
  · have i0 : index [p0, p1, p2] 0 = some p0 := by simp [index]
    have i1 : index [p0, p1, p2] 1 = some p1 := by simp [index]
    have i2 : index [p0, p1, p2] 2 = some p2 := by simp [index]
    simp only [DrawOptimizedTriangleWith, hfill, i0, i1, i2, Option.bind_eq_bind,
      Option.some_bind, Option.bind_some]
  · intro x y
    refine ⟨_, rfl, hiff x y, ?_, ?_⟩
    · intro h
      obtain ⟨h1, h2, h3, h4, -⟩ := (hiff x y).1 h
      exact ⟨h1, h2, h3, h4⟩
    · intro hlen h
      obtain ⟨-, -, -, -, -, -, a, b, -, hab, -⟩ := (hiff x y).1 h
      rcases hab with h | h <;>
        · rw [h] at hlen
          exact hlen rfl

/-! ## Line strokes for any arithmetic, and in float64 -/

/-- The sample `i` of `DrawLineWith` on a segment with `steps ≠ 0`. -/
theorem getElem?_DrawLineWith {α : Type} [LinearOrderedField α] [FloorRing α] (A : Arith α)
    (x1 y1 x2 y2 : α) (col : RGBA) (h : max |A.sub x2 x1| |A.sub y2 y1| ≠ 0) (i : Nat) :
    (DrawLineWith A x1 y1 x2 y2 col)[i]? =
      if (i : Int) ≤ toInt (max |A.sub x2 x1| |A.sub y2 y1|) then
        some ⟨toInt (A.add x1 (A.mul (A.div (A.sub x2 x1) (max |A.sub x2 x1| |A.sub y2 y1|))
                (i : α))),
              toInt (A.add y1 (A.mul (A.div (A.sub y2 y1) (max |A.sub x2 x1| |A.sub y2 y1|))
                (i : α))), col⟩
      else none := by
  have hs : 0 ≤ toInt (max |A.sub x2 x1| |A.sub y2 y1|) :=
    toInt_nonneg _ (le_trans (abs_nonneg _) (le_max_left _ _))
  split_ifs with hi
  · have hget := getElem?_loopRange 0 (toInt (max |A.sub x2 x1| |A.sub y2 y1|)) i (by omega)
    simp only [DrawLineWith, if_neg h, List.getElem?_map, hget, Option.map_some']
    have e : (((0 + (i : Int)) : Int) : α) = (i : α) := by push_cast; ring
    rw [e]
  · apply List.getElem?_eq_none
    simp only [DrawLineWith, if_neg h, List.length_map, length_loopRange]
    omega

theorem length_DrawLineWith {α : Type} [LinearOrderedField α] [FloorRing α] (A : Arith α)
    (x1 y1 x2 y2 : α) (col : RGBA) (h : max |A.sub x2 x1| |A.sub y2 y1| ≠ 0) :
    ((DrawLineWith A x1 y1 x2 y2 col).length : Int) =
      toInt (max |A.sub x2 x1| |A.sub y2 y1|) + 1 := by
  have hs : 0 ≤ toInt (max |A.sub x2 x1| |A.sub y2 y1|) :=
    toInt_nonneg _ (le_trans (abs_nonneg _) (le_max_left _ _))
  simp only [DrawLineWith, if_neg h, List.length_map, length_loopRange]
  omega

/-- The float64 stroke from `(0,0)` to `(0,0)` and from `(0,0)` to `(3,0)`. -/
theorem DrawLineWith_float64_small (col : RGBA) :
    DrawLineWith float64Arith 0 0 0 0 col = [⟨0, 0, col⟩] ∧
    DrawLineWith float64Arith 0 0 3 0 col =
      [⟨0, 0, col⟩, ⟨1, 0, col⟩, ⟨2, 0, col⟩, ⟨3, 0, col⟩] := by
  obtain ⟨r1, r2, r3, -⟩ := round64_small
  have r0 := round64_zero
  constructor
  · simp [DrawLineWith, float64Arith, r0, toInt_zero]
  · have hdx : round64 ((3 : ℚ) - 0) = 3 := by rw [sub_zero, r3]
    have hdy : round64 ((0 : ℚ) - 0) = 0 := by rw [sub_zero, r0]
    have hs : max |(3 : ℚ)| |(0 : ℚ)| = 3 := by norm_num
    have h30 : (3 : ℚ) ≠ 0 := by norm_num
    have hxi : round64 ((3 : ℚ) / 3) = 1 := by rw [div_self h30, r1]
    have hyi : round64 ((0 : ℚ) / 3) = 0 := by rw [zero_div, r0]
    have t3 : toInt (3 : ℚ) = 3 := toInt_ofNat 3
    have l3 : loopRange 0 3 = [0, 1, 2, 3] := by decide
    have ex : ∀ k : Int, k = 0 ∨ k = 1 ∨ k = 2 ∨ k = 3 →
        toInt (round64 ((0 : ℚ) + round64 (1 * (k : ℚ)))) = k := by
      intro k hk
      rcases hk with rfl | rfl | rfl | rfl
      · simp [r0, toInt_zero]
      · simp only [Int.cast_one, mul_one, r1, zero_add]
        simpa using toInt_intCast (α := ℚ) 1
      · simp only [Int.cast_ofNat, one_mul, r2, zero_add]
        exact toInt_ofNat 2
      · simp only [Int.cast_ofNat, one_mul, r3, zero_add]
        exact toInt_ofNat 3
    have ey : ∀ k : Int, toInt (round64 ((0 : ℚ) + round64 (0 * (k : ℚ)))) = 0 := by
      intro k
      simp [r0, toInt_zero]
    simp only [DrawLineWith, float64Arith, hdx, hdy, hs, if_neg h30, hxi, hyi, t3, l3, List.map,
      ey, ex 0 (Or.inl rfl), ex 1 (Or.inr (Or.inl rfl)), ex 2 (Or.inr (Or.inr (Or.inl rfl))),
      ex 3 (Or.inr (Or.inr (Or.inr rfl)))]

/-- C9, as the code has it: with `dx = x2 - x1`, `dy = y2 - y1` and
`steps = max(|dx|, |dy|)` as the arithmetic `A` computes them: if `steps = 0`,
`DrawLine` plots exactly one pixel `(int(x1), int(y1))`; otherwise it plots
`int(steps) + 1` samples, and sample `i` is `(x1 + (dx/steps)*i, y1 + (dy/steps)*i)`,
each operation that of `A`, converted to a pixel.  In exact arithmetic sample `i` is
the point `(x1 + i*(x2-x1)/steps, y1 + i*(y2-y1)/steps)`.  In float64 as in exact
arithmetic `(0,0)-(0,0)` plots exactly one point and `(0,0)-(3,0)` plots exactly the
four pixels `(0,0), (1,0), (2,0), (3,0)`. -/
theorem DrawLineWith_samples {α : Type} [LinearOrderedField α] [FloorRing α]
    (x1 y1 x2 y2 : α) (col : RGBA) :
    (∀ A : Arith α,
      (max |A.sub x2 x1| |A.sub y2 y1| = 0 →
        DrawLineWith A x1 y1 x2 y2 col = [⟨toInt x1, toInt y1, col⟩]) ∧
      (max |A.sub x2 x1| |A.sub y2 y1| ≠ 0 →
        ((DrawLineWith A x1 y1 x2 y2 col).length : Int) =
          toInt (max |A.sub x2 x1| |A.sub y2 y1|) + 1 ∧
        ∀ i : Nat, (i : Int) ≤ toInt (max |A.sub x2 x1| |A.sub y2 y1|) →
          (DrawLineWith A x1 y1 x2 y2 col)[i]? =
            some ⟨toInt (A.add x1
                    (A.mul (A.div (A.sub x2 x1) (max |A.sub x2 x1| |A.sub y2 y1|)) (i : α))),
                  toInt (A.add y1
                    (A.mul (A.div (A.sub y2 y1) (max |A.sub x2 x1| |A.sub y2 y1|)) (i : α))),
                  col⟩)) ∧
    (max |x2 - x1| |y2 - y1| ≠ 0 →
      ∀ i : Nat, (i : Int) ≤ toInt (max |x2 - x1| |y2 - y1|) →
        (DrawLineWith exactArith x1 y1 x2 y2 col)[i]? =
          some ⟨toInt (x1 + (i : α) * (x2 - x1) / max |x2 - x1| |y2 - y1|),
                toInt (y1 + (i : α) * (y2 - y1) / max |x2 - x1| |y2 - y1|), col⟩) ∧
    (DrawLineWith float64Arith 0 0 0 0 col = [⟨0, 0, col⟩] ∧
      DrawLineWith float64Arith 0 0 3 0 col =
        [⟨0, 0, col⟩, ⟨1, 0, col⟩, ⟨2, 0, col⟩, ⟨3, 0, col⟩]) ∧
    (DrawLineWith exactArith (0 : α) 0 0 0 col = [⟨0, 0, col⟩] ∧
      DrawLineWith exactArith (0 : α) 0 3 0 col =
        [⟨0, 0, col⟩, ⟨1, 0, col⟩, ⟨2, 0, col⟩, ⟨3, 0, col⟩]) := by
  refine ⟨?_, ?_, DrawLineWith_float64_small col, ?_, ?_⟩
  · intro A
    constructor
    · intro h
      simp only [DrawLineWith, h, if_true]
    · intro h
      refine ⟨length_DrawLineWith A x1 y1 x2 y2 col h, fun i hi => ?_⟩
      rw [getElem?_DrawLineWith A x1 y1 x2 y2 col h, if_pos hi]
  · intro h i hi
    have hA : max |(exactArith : Arith α).sub x2 x1| |(exactArith : Arith α).sub y2 y1| =
        max |x2 - x1| |y2 - y1| := rfl
    rw [getElem?_DrawLineWith exactArith x1 y1 x2 y2 col (by rw [hA]; exact h),
      if_pos (by rw [hA]; exact hi)]
    simp only [exactArith]
    have ex : x1 + (x2 - x1) / max |x2 - x1| |y2 - y1| * (i : α) =
        x1 + (i : α) * (x2 - x1) / max |x2 - x1| |y2 - y1| := by ring
    have ey : y1 + (y2 - y1) / max |x2 - x1| |y2 - y1| * (i : α) =
        y1 + (i : α) * (y2 - y1) / max |x2 - x1| |y2 - y1| := by ring
    rw [ex, ey]
  · simp [DrawLineWith, exactArith, toInt_zero]
  · have h3 : max |(3 : α) - 0| |(0 : α) - 0| = 3 := by norm_num
    have h30 : (3 : α) ≠ 0 := by norm_num
    have t3 : toInt (3 : α) = 3 := toInt_ofNat 3
    have r3 : loopRange 0 3 = [0, 1, 2, 3] := by decide
    have e : ∀ k : Int, toInt ((0 : α) + ((3 : α) - 0) / 3 * (k : α)) = k := by
      intro k
      have : (0 : α) + ((3 : α) - 0) / 3 * (k : α) = (k : α) := by field_simp
      rw [this, toInt_intCast]
    have z : ∀ k : Int, toInt ((0 : α) + ((0 : α) - 0) / 3 * (k : α)) = 0 := by
      intro k
      have : (0 : α) + ((0 : α) - 0) / 3 * (k : α) = 0 := by simp
      rw [this, toInt_zero]
    simp only [DrawLineWith, exactArith, h3, if_neg h30, t3, r3, List.map, e, z]

/-- C9, the claim as stated fails in float64: on the segment `(0,0)-(22,15)` the
last sample, `i = 22`, is plotted at pixel `(22, 14)`, because `(15/22)*22` rounds
to a number below 15, while the point `(x1 + i*(x2-x1)/steps, y1 + i*(y2-y1)/steps)`
of the claim is `(22, 15)`. -/
theorem DrawLine_float64_last_pixel :
    (DrawLineWith float64Arith 0 0 22 15 ⟨255, 255, 255, 255⟩)[22]? =
      some ⟨22, 14, ⟨255, 255, 255, 255⟩⟩ ∧
    toInt ((0 : ℚ) + ((22 : Nat) : ℚ) * (22 - 0) / max |(22 : ℚ) - 0| |(15 : ℚ) - 0|) = 22 ∧
    toInt ((0 : ℚ) + ((22 : Nat) : ℚ) * (15 - 0) / max |(22 : ℚ) - 0| |(15 : ℚ) - 0|) = 15 := by
  obtain ⟨r1, -, -, -, r15, r22⟩ := round64_small
  have hdx : float64Arith.sub 22 0 = 22 := by
    show round64 ((22 : ℚ) - 0) = 22
    rw [sub_zero, r22]
  have hdy : float64Arith.sub 15 0 = 15 := by
    show round64 ((15 : ℚ) - 0) = 15
    rw [sub_zero, r15]
  have hs : max |(22 : ℚ)| |(15 : ℚ)| = 22 := by norm_num
  have h22 : (22 : ℚ) ≠ 0 := by norm_num
  have t22 : toInt (22 : ℚ) = 22 := toInt_ofNat 22
  have hxi : float64Arith.div 22 22 = 1 := by
    show round64 ((22 : ℚ) / 22) = 1
    rw [div_self h22, r1]
  have hyi : float64Arith.div 15 22 = 6141272219141585 / 9007199254740992 := by
    show round64 ((15 : ℚ) / 22) = _
    rw [round64_eq (15 / 22) (-1) 6141272219141585 (by norm_num) (by norm_num)
      (roundHalfEven_of_lt _ _ (by norm_num) (by norm_num))]
    norm_num
  have hx : float64Arith.add 0 (float64Arith.mul 1 ((22 : Nat) : ℚ)) = 22 := by
    show round64 ((0 : ℚ) + round64 (1 * ((22 : Nat) : ℚ))) = 22
    norm_num [r22]
  have hy : float64Arith.add 0
      (float64Arith.mul (6141272219141585 / 9007199254740992) ((22 : Nat) : ℚ)) =
      8444249301319679 / 562949953421312 := by
    show round64 ((0 : ℚ) + round64 (6141272219141585 / 9007199254740992 * ((22 : Nat) : ℚ))) = _
    have hm : round64 (6141272219141585 / 9007199254740992 * ((22 : Nat) : ℚ)) =
        8444249301319679 / 562949953421312 := by
      rw [round64_eq _ 3 8444249301319679 (by norm_num) (by norm_num)
        (roundHalfEven_of_lt _ _ (by norm_num) (by norm_num))]
      norm_num
    rw [hm, zero_add]
    rw [round64_eq _ 3 8444249301319679 (by norm_num) (by norm_num)
      (roundHalfEven_of_lt _ _ (by norm_num) (by norm_num))]
    norm_num
  have hty : toInt (8444249301319679 / 562949953421312 : ℚ) = 14 := by
    have hnn : (0 : ℚ) ≤ 8444249301319679 / 562949953421312 := by norm_num
    rw [toInt, if_pos hnn, Int.floor_eq_iff]
    norm_num
  refine ⟨?_, ?_, ?_⟩
  · rw [getElem?_DrawLineWith float64Arith 0 0 22 15 _ (by rw [hdx, hdy, hs]; exact h22)]
    simp only [hdx, hdy, hs, t22, hxi, hyi, hx, hy, hty]
    rfl
  · have e : (0 : ℚ) + ((22 : Nat) : ℚ) * (22 - 0) / max |(22 : ℚ) - 0| |(15 : ℚ) - 0| = 22 := by
      norm_num
    rw [e, t22]
  · have e : (0 : ℚ) + ((22 : Nat) : ℚ) * (15 - 0) / max |(22 : ℚ) - 0| |(15 : ℚ) - 0| = 15 := by
      norm_num
    rw [e]
    exact toInt_ofNat 15

/-- A normalised vector of positive squared length has positive squared length. -/
theorem dot_normalize_self_pos {α : Type} [LinearOrderedField α] (sqrt : α → α)
    (hsqrt : ∀ x : α, 0 < x → 0 < sqrt x) (u : Point3D α) (hu : 0 < dot u u) :
    0 < dot (normalize sqrt u) (normalize sqrt u) := by
  have hL := hsqrt _ hu
  rw [dot_normalize_left, dot_normalize_right]
  exact div_pos (div_pos hu hL) hL

/-- The inner loop keeps every face acute and every vertex non-zero. -/
theorem subdivideFaces_acute_pos {α : Type} [LinearOrderedField α] (sqrt : α → α)
    (hsqrt : ∀ x : α, 0 < x → 0 < sqrt x) (faces : List Face) :
    ∀ (vs : List (Point3D α)) (nf : List Face),
      (∀ f ∈ faces, FaceAcute vs f) → (∀ f ∈ nf, FaceAcute vs f) →
      (∀ v ∈ vs, 0 < dot v v) →
      ∃ vs2 nf2, subdivideFaces sqrt faces (vs, nf) = some (vs2, nf2) ∧
        (∀ f ∈ nf2, FaceAcute vs2 f) ∧ ∀ v ∈ vs2, 0 < dot v v := by
  induction faces with
  | nil =>
    intro vs nf _ hnf hpos
    exact ⟨vs, nf, rfl, hnf, hpos⟩
  | cons face rest ih =>
    intro vs nf hfaces hnf hpos
    obtain ⟨a, b, c, va, vb, vc, rfl, ha, hb, hc, hab, hbc, hca⟩ := hfaces face (by simp)
    have hstep := subdivideFace_eq sqrt vs nf a b c va vb vc ha hb hc
    have hnew := newFaces_acute sqrt hsqrt vs a b c va vb vc ha hb hc hab hbc hca
    obtain ⟨vs2, nf2, hrun, hok, hpos2⟩ := ih
      (vs ++ [normalize sqrt (midpoint va vb), normalize sqrt (midpoint vb vc),
        normalize sqrt (midpoint vc va)])
      (nf ++ [[a, (vs.length : Int), (vs.length : Int) + 2],
        [b, (vs.length : Int) + 1, (vs.length : Int)],
        [c, (vs.length : Int) + 2, (vs.length : Int) + 1],
        [(vs.length : Int), (vs.length : Int) + 1, (vs.length : Int) + 2]])
      (fun f hf => (hfaces f (by simp [hf])).append _)
      (fun f hf => by
        rcases List.mem_append.1 hf with h | h
        · exact (hnf f h).append _
        · exact hnew f h)
      (fun v hv => by
        rcases List.mem_append.1 hv with h | h
        · exact hpos v h
        · simp only [List.mem_cons, List.mem_singleton, List.not_mem_nil, or_false] at h
          rcases h with rfl | rfl | rfl
          · exact dot_normalize_self_pos sqrt hsqrt _ (dot_midpoint_self_pos va vb hab)
          · exact dot_normalize_self_pos sqrt hsqrt _ (dot_midpoint_self_pos vb vc hbc)
          · exact dot_normalize_self_pos sqrt hsqrt _ (dot_midpoint_self_pos vc va hca))
    refine ⟨vs2, nf2, ?_, hok, hpos2⟩
    simp only [subdivideFaces, hstep, Option.some_bind, Option.bind_some]
    exact hrun

/-- The outer loop keeps every face acute and every vertex non-zero. -/
theorem subdivideLoop_acute_pos {α : Type} [LinearOrderedField α] (sqrt : α → α)
    (hsqrt : ∀ x : α, 0 < x → 0 < sqrt x) (n : Nat) :
    ∀ (vs : List (Point3D α)) (fs : List Face), (∀ f ∈ fs, FaceAcute vs f) →
      (∀ v ∈ vs, 0 < dot v v) →
      ∃ vs2 fs2, subdivideLoop sqrt n (vs, fs) = some (vs2, fs2) ∧
        (∀ f ∈ fs2, FaceAcute vs2 f) ∧ ∀ v ∈ vs2, 0 < dot v v := by
  induction n with
  | zero =>
    intro vs fs hfs hpos
    exact ⟨vs, fs, rfl, hfs, hpos⟩
  | succ n ih =>
    intro vs fs hfs hpos
    obtain ⟨vs1, fs1, hpass, hok1, hpos1⟩ :=
      subdivideFaces_acute_pos sqrt hsqrt fs vs [] hfs (by simp) hpos
    obtain ⟨vs2, fs2, hloop, hok2, hpos2⟩ := ih vs1 fs1 hok1 hpos1
    refine ⟨vs2, fs2, ?_, hok2, hpos2⟩
    simp only [subdivideLoop, subdividePass, hpass, Option.some_bind, Option.bind_some]
    exact hloop

/-- Every seed vertex has positive squared length. -/
theorem seedVertices_pos {α : Type} [LinearOrderedField α] (sqrt : α → α) :
    ∀ v ∈ seedVertices sqrt, 0 < dot v v := by
  intro v hv
  have ht := mul_self_nonneg (goldenT sqrt)
  simp only [seedVertices, List.mem_cons, List.mem_singleton, List.not_mem_nil, or_false] at hv
  rcases hv with h | h | h | h | h | h | h | h | h | h | h | h <;>
    subst h <;>
    simp only [dot, mul_zero, zero_mul, add_zero, zero_add, mul_one, one_mul, mul_neg, neg_mul,
      neg_neg, neg_zero] <;>
    linarith

/-- Over the reals every vertex of every level of `createSphere` is a non-zero
vector. -/
theorem createSphere_vertices_ne_zero (n : Nat) :
    ∃ vs fs, createSphere Real.sqrt (n : Int) = some (vs, fs) ∧
      ∀ v ∈ vs, v ≠ (⟨0, 0, 0⟩ : Point3D ℝ) := by
  obtain ⟨vs, fs, h, -, hpos⟩ :=
    subdivideLoop_acute_pos Real.sqrt (fun x hx => Real.sqrt_pos.2 hx) n
      (seedVertices Real.sqrt) seedFaces (seedFaces_acute Real.sqrt one_lt_sqrt_five)
      (seedVertices_pos Real.sqrt)
  refine ⟨vs, fs, ?_, ?_⟩
  · simpa [createSphere] using h
  · intro v hv h0
    have := hpos v hv
    rw [h0] at this
    simp [dot] at this

/-- C11: `animateVertices` returns a list of the same length for every vertex list
and time; and on the vertex lists that the program animates, the meshes of
`createSphere` at every level `n ≥ 0`, for every time `t` and every index `i` with
`sin(t + 0.1*i) = 0` the output vertex `i` equals the input vertex `i`; in particular
at `t = 0` the vertex at index 0 is returned unchanged, and when every such sine is
zero the output equals the input. -/
theorem animateVertices_mesh (n : Nat) (time : ℝ) :
    (∀ (vertices : List (Point3D ℝ)) (t : ℝ),
      (animateVertices Real.sqrt Real.sin vertices t).length = vertices.length) ∧
    ∃ vs fs, createSphere Real.sqrt (n : Int) = some (vs, fs) ∧
      (∀ (i : Nat) (v : Point3D ℝ), vs[i]? = some v →
        Real.sin (time + 0.1 * (i : ℝ)) = 0 →
        (animateVertices Real.sqrt Real.sin vs time)[i]? = some (some v)) ∧
      (∃ v0 : Point3D ℝ, vs[0]? = some v0 ∧
        (animateVertices Real.sqrt Real.sin vs 0)[0]? = some (some v0)) ∧
      ((∀ (i : Nat) (v : Point3D ℝ), vs[i]? = some v →
          Real.sin (time + 0.1 * (i : ℝ)) = 0) →
        animateVertices Real.sqrt Real.sin vs time = vs.map some) := by
  refine ⟨fun vertices t => (animateVertices_fixed_of_ne_zero vertices t).1, ?_⟩
  obtain ⟨vs, fs, h, hne⟩ := createSphere_vertices_ne_zero n
  obtain ⟨vs2, fs2, h2, -, -, ⟨ext, hext⟩, -⟩ := createSphere_spec Real.sqrt n
  have hsame : vs2 = vs := by
    rw [h] at h2
    exact (congrArg Prod.fst (Option.some.inj h2)).symm
  rw [hsame] at hext
  have hmem : ∀ (i : Nat) (v : Point3D ℝ), vs[i]? = some v → v ∈ vs := by
    intro i v hv
    exact List.getElem?_mem hv
  obtain ⟨-, hfix, -, hall⟩ := animateVertices_fixed_of_ne_zero vs time
  refine ⟨vs, fs, h, ?_, ?_, ?_⟩
  · intro i v hv hsin
    exact hfix i v hv (hne v (hmem i v hv)) hsin
  · have h0 : vs[0]? = some (⟨-1, goldenT Real.sqrt, 0⟩ : Point3D ℝ) := by
      rw [hext]
      simp [seedVertices]
    refine ⟨_, h0, ?_⟩
    exact (animateVertices_fixed_of_ne_zero vs 0).2.1 0 _ h0 (hne _ (hmem 0 _ h0)) (by simp)
  · intro hs
    exact hall (fun i v hv => ⟨hne v (hmem i v hv), hs i v hv⟩)

/-! ## The redraw decision on the states the program reaches -/

/-- In every state the program reaches, the stored `lastScale` and `lastAngle` are
within 0.1 and 0.01 of scale and angle. -/
theorem Reachable.within {α : Type} [LinearOrderedField α] [FloorRing α] {s : ViewState α}
    (h : Reachable s) : |s.lastScale - s.scale| ≤ 0.1 ∧ |s.lastAngle - s.angle| ≤ 0.01 := by
  induction h with
  | init => exact (Update_redraw_facts (initialState : ViewState α)
      ⟨false, false, 0, 0, 0, false, false, false, 0, 0⟩).2.2.2.2
  | update s inp _ _ => exact (Update_redraw_facts s inp).2.2.2.1
  | draw s _ ih =>
    unfold Draw
    split_ifs
    · exact ih
    · exact ih

/-- C17: in every state at which the program calls `Update` (the state of `NewGame`
and the states after any sequence of `Update` and `Draw` calls) and for all tick
inputs: after `Update`, `needsRedraw` is true whenever dragging was not active at
the start of that `Update`, and also whenever the updated scale differs from
`lastScale` by more than 0.1 or the updated angle from `lastAngle` by more than 0.01;
while dragging with zero scroll, `Update` leaves scale, angle and `needsRedraw`
unchanged. -/
theorem Update_redraw_reachable {α : Type} [LinearOrderedField α] [FloorRing α]
    (s : ViewState α) (hs : Reachable s) (inp : TickInput α) :
    (s.isDragging = false → (Update s inp).1.needsRedraw = true) ∧
    ((|s.lastScale - (Update s inp).1.scale| > 0.1 ∨
        |s.lastAngle - (Update s inp).1.angle| > 0.01) →
      (Update s inp).1.needsRedraw = true) ∧
    (s.isDragging = true → inp.scrollY = 0 →
      (Update s inp).1.scale = s.scale ∧ (Update s inp).1.angle = s.angle ∧
      (Update s inp).1.needsRedraw = s.needsRedraw) := by
  obtain ⟨h1, h2, h3, -, -⟩ := Update_redraw_facts s inp
  obtain ⟨w1, w2⟩ := hs.within
  refine ⟨h1, h2, fun hd hz => ?_⟩
  obtain ⟨e1, e2, e3⟩ := h3 hd hz
  exact ⟨e1, e2, e3 w1 w2⟩

/-- The state after a first tick in which the button is pressed over the sphere is
reached by the program and is a dragging state; `Update_redraw_reachable` applied to
it with an idle tick. -/
theorem Update_redraw_reachable_witness :
    Reachable (Update (initialState : ViewState ℚ)
      ⟨false, false, 0, 300, 300, true, true, false, 0, 0⟩).1 ∧
    (Update (initialState : ViewState ℚ)
      ⟨false, false, 0, 300, 300, true, true, false, 0, 0⟩).1.isDragging = true ∧
    ((Update (Update (initialState : ViewState ℚ)
        ⟨false, false, 0, 300, 300, true, true, false, 0, 0⟩).1
        ⟨false, false, 0, 300, 300, false, true, false, 0, 0⟩).1.needsRedraw =
      (Update (initialState : ViewState ℚ)
        ⟨false, false, 0, 300, 300, true, true, false, 0, 0⟩).1.needsRedraw) :=
  have hr : Reachable (Update (initialState : ViewState ℚ)
      ⟨false, false, 0, 300, 300, true, true, false, 0, 0⟩).1 :=
    Reachable.update _ _ Reachable.init
  have hd : (Update (initialState : ViewState ℚ)
      ⟨false, false, 0, 300, 300, true, true, false, 0, 0⟩).1.isDragging = true := by
    have t50 : toInt (50.0 : ℚ) = 50 := by
      have : (50.0 : ℚ) = ((50 : Int) : ℚ) := by norm_num
      rw [this, toInt_intCast]
    have t300 : toInt (300 : ℚ) = 300 := toInt_ofNat 300
    have hover : isCursorOverSphere (50.0 : ℚ) 300 300 = true := by
      simp only [isCursorOverSphere, sphereX, sphereY, t50, t300]
      decide
    have hv : (updateView (initialState : ViewState ℚ)
        ⟨false, false, 0, 300, 300, true, true, false, 0, 0⟩).scale = 50.0 := by
      have h1 := (applyThreshold_view (applyRotation (applyScroll (applyKeys
        (initialState : ViewState ℚ) ⟨false, false, 0, 300, 300, true, true, false, 0, 0⟩)
        ⟨false, false, 0, 300, 300, true, true, false, 0, 0⟩))).1
      have h2 := (applyRotation_view (applyScroll (applyKeys
        (initialState : ViewState ℚ) ⟨false, false, 0, 300, 300, true, true, false, 0, 0⟩)
        ⟨false, false, 0, 300, 300, true, true, false, 0, 0⟩)).1
      have h3 := (applyScroll_view (applyKeys
        (initialState : ViewState ℚ) ⟨false, false, 0, 300, 300, true, true, false, 0, 0⟩)
        ⟨false, false, 0, 300, 300, true, true, false, 0, 0⟩).2.2.2.2 rfl
      have h4 := (applyKeys_view (initialState : ViewState ℚ)
        ⟨false, false, 0, 300, 300, true, true, false, 0, 0⟩).1
      simp only [updateView]
      rw [h1, h2, h3, h4]
      rfl
    simp only [Update, updateDrag, hv, hover, if_true]
    simp
  ⟨hr, hd, (Update_redraw_reachable _ hr
    ⟨false, false, 0, 300, 300, false, true, false, 0, 0⟩).2.2 hd rfl |>.2.2⟩

end FractalSphere
